import Mathlib

/-!
Verification of the `wikiextractor.py` extraction pipeline of the
Wikipedia2Json repository.

The development shallowly embeds the text-processing pipeline of
`src/wikiextractor/wikiextractor.py`.  Python strings are embedded as
`List Char` (named `Str` below); the regex passes of the cleaner are
embedded as explicit left-to-right scanners implementing the exact
leftmost / lazy-shortest match semantics of each concrete pattern used by
the source (each scanner's doc comment names the pattern it implements).
Python's `str.replace` is embedded as `replaceAll`, which replaces
non-overlapping occurrences left to right, exactly like the source
operation.  Python exceptions (e.g. `int(...)` failing, or `title[0]` on
an empty title) are embedded as `Except Unit`.

Character-level caveats of the embedding, noted where relevant:
`lower`/`upper`/`isalpha`/`\w` are embedded at ASCII level (the source
relies on Python's unicode-aware versions, which agree on ASCII), and
`chr` is embedded as `Char.ofNat`, which agrees with Python's `chr` on
all unicode scalar values (everything except the surrogate range).
-/

namespace Wiki

/-- Python strings are embedded as lists of characters. -/
abbrev Str := List Char

/-- The apostrophe character (named to keep literals readable). -/
def apos : Char := Char.ofNat 39

/-- The double-quote character. -/
def dq : Char := Char.ofNat 34

/-- The backslash character. -/
def bsl : Char := Char.ofNat 92

/-- The opening-brace character. -/
def lbr : Char := Char.ofNat 123

/-- The closing-brace character. -/
def rbr : Char := Char.ofNat 125

/-- The pipe character. -/
def pipeC : Char := Char.ofNat 124

/-- The unicode replacement character U+FFFD.  The source file literally
contains two U+FFFD characters (mojibake of the original guillemets) as the
replacement text for `<<` and `>>`, and later normalizes spacing around that
two-character string. -/
def repl2 : Str := [Char.ofNat 0xFFFD, Char.ofNat 0xFFFD]

/-- ASCII lower-casing of one character (embeds `str.lower` per character;
the source only ever lower-cases for comparisons against ASCII keywords). -/
def pyLowerChar (c : Char) : Char :=
  if 'A' ≤ c ∧ c ≤ 'Z' then Char.ofNat (c.toNat + 32) else c

/-- ASCII upper-casing of one character (embeds `str.upper` on a
one-character string, as used by `get_wiki_document_url`). -/
def pyUpperChar (c : Char) : Char :=
  if 'a' ≤ c ∧ c ≤ 'z' then Char.ofNat (c.toNat - 32) else c

/-- Lower-case a whole string. -/
def lowerStr (s : Str) : Str := s.map pyLowerChar

/-- Python whitespace for `str.strip()` / `str.split()` / `\s`
(ASCII part: space, tab, newline, carriage return, vertical tab, form feed). -/
def isPyWs (c : Char) : Bool :=
  c = ' ' ∨ c = Char.ofNat 9 ∨ c = Char.ofNat 10 ∨ c = Char.ofNat 13 ∨
  c = Char.ofNat 11 ∨ c = Char.ofNat 12

/-- Python `str.lstrip()` (strip leading whitespace). -/
def pyLStrip (s : Str) : Str := s.dropWhile isPyWs

/-- Python `str.strip()` (strip whitespace from both ends). -/
def pyStrip (s : Str) : Str := ((s.dropWhile isPyWs).reverse.dropWhile isPyWs).reverse

/-- Python `str.strip(cs)` with an explicit character set. -/
def pyStripChars (cs : List Char) (s : Str) : Str :=
  ((s.dropWhile (cs.contains ·)).reverse.dropWhile (cs.contains ·)).reverse

/-- Python slice `s[a : len(s)-b]` (the only slice shapes the source uses are
`s[a:]`, which is `List.drop`, and `s[a:-b]`, which is this). -/
def pySlice (a b : Nat) (s : Str) : Str := (s.drop a).take (s.length - b - a)

/-- Membership of a character in a string (Python `c in s`). -/
def containsChar (c : Char) (s : Str) : Bool := s.contains c

/-- Occurrence of `p` as a contiguous substring of `s` (Python `p in s`). -/
def containsSub (p : Str) : Str → Bool
  | [] => p.isEmpty
  | c :: cs => p.isPrefixOf (c :: cs) || containsSub p cs

/-- Value of a non-empty all-digit string, as used to embed `int(...)`. -/
def digitsVal (s : Str) : Nat := s.foldl (fun a c => 10 * a + (c.toNat - 48)) 0

/-- Python `int(s)` for the shapes the source can feed it: optional
surrounding whitespace, an optional sign, then decimal digits; anything else
raises, embedded as `none`.  (Python also accepts underscore digit grouping,
which no input of this pipeline uses.) -/
def pyInt (s : Str) : Option Int :=
  match pyStrip s with
  | [] => none
  | c :: cs =>
    if c = '-' then
      if cs ≠ [] ∧ cs.all Char.isDigit then some (-(digitsVal cs : Int)) else none
    else if c = '+' then
      if cs ≠ [] ∧ cs.all Char.isDigit then some ((digitsVal cs : Int)) else none
    else if (c :: cs).all Char.isDigit then some ((digitsVal (c :: cs) : Int))
    else none

/-- Python `str.split(sep)` for a one-character separator (the source splits
on `"|"`, `":"` and `"\n"`). -/
def splitOnChar (sep : Char) (s : Str) : List Str := s.splitOn sep

/-- Python `str.split()` with no argument: split on whitespace runs,
discarding empty pieces. -/
def pyWords (s : Str) : List Str :=
  (s.splitOnP (fun c => isPyWs c)).filter (fun w => ¬ w.isEmpty)

/-!  Generic scanning combinators.

`re.sub` and the `finditer`-then-`replace` loops of the source all walk the
subject left to right, attempt a match at each position, and on a match
continue after the match's end (non-overlapping).  `goSub` embeds the `sub`
shape (replace each match), `goCollect` the `finditer` shape (collect each
match's payload), and `goCollectPos` additionally records the match's start
offset (used for the annotation offsets of `process_document`).

A matcher takes the current suffix and returns `some (k, payload)` when the
pattern matches a prefix of length `k > 0` of that suffix.  The `fuel`
argument makes the recursion structural; it is always initialised to the
subject's length, which is sufficient because every step consumes at least
one character. -/

/-- Left-to-right replace-each-match scan (embeds `re.sub` for the concrete
patterns of the source; the matcher returns the match length and the
replacement text). -/
def goSub (m : Str → Option (Nat × Str)) : Nat → Str → Str
  | _, [] => []
  | 0, s => s
  | fuel + 1, c :: cs =>
    match m (c :: cs) with
    | some (k, r) =>
      if k = 0 then c :: goSub m fuel cs
      else r ++ goSub m fuel ((c :: cs).drop k)
    | none => c :: goSub m fuel cs

/-- Entry point of `goSub` with sufficient fuel. -/
def subAll (m : Str → Option (Nat × Str)) (s : Str) : Str := goSub m s.length s

/-- Left-to-right collect-each-match scan (embeds `re.finditer` for the
concrete patterns of the source; `α` is the per-match payload). -/
def goCollect {α : Type} (m : Str → Option (Nat × α)) : Nat → Str → List α
  | _, [] => []
  | 0, _ => []
  | fuel + 1, c :: cs =>
    match m (c :: cs) with
    | some (k, a) =>
      if k = 0 then goCollect m fuel cs
      else a :: goCollect m fuel ((c :: cs).drop k)
    | none => goCollect m fuel cs

/-- Entry point of `goCollect` with sufficient fuel. -/
def collectAll {α : Type} (m : Str → Option (Nat × α)) (s : Str) : List α :=
  goCollect m s.length s

/-- Position-tracking variant of `goCollect`: each collected payload is
paired with the absolute start offset of its match. -/
def goCollectPos {α : Type} (m : Str → Option (Nat × α)) :
    Nat → Nat → Str → List (Nat × α)
  | _, _, [] => []
  | 0, _, _ => []
  | fuel + 1, pos, c :: cs =>
    match m (c :: cs) with
    | some (k, a) =>
      if k = 0 then goCollectPos m fuel (pos + 1) cs
      else (pos, a) :: goCollectPos m fuel (pos + k) ((c :: cs).drop k)
    | none => goCollectPos m fuel (pos + 1) cs

/-- Entry point of `goCollectPos` with sufficient fuel, starting at offset 0. -/
def collectAllPos {α : Type} (m : Str → Option (Nat × α)) (s : Str) :
    List (Nat × α) :=
  goCollectPos m s.length 0 s

/-- Python `s.replace(p, r)`: replace every non-overlapping occurrence of
`p`, left to right.  (All `replace` calls of the source have a non-empty
pattern; an empty pattern is treated as matching nothing.) -/
def replaceAll (p r : Str) (s : Str) : Str :=
  subAll (fun t => if p.isPrefixOf t then some (p.length, r) else none) s

/-!  Matchers for the concrete regex patterns of the source.

Each matcher attempts its pattern at the head of the given suffix and
returns the match length (and payload).  The lazy (`*?`, `+?`) and
alternation semantics of each pattern were unfolded by hand for the
concrete pattern; comments note the reasoning where it is not immediate. -/

/-- Length of the leading whitespace run (`\s*`, which is determinate here
because in every pattern below it is followed by a non-whitespace literal
or character class). -/
def wsRunLen (s : Str) : Nat := (s.takeWhile isPyWs).length

/-- Index of the first occurrence of `p` as a substring. -/
def findIdxSub (p : Str) : Str → Option Nat
  | [] => if p.isEmpty then some 0 else none
  | c :: cs =>
    if p.isPrefixOf (c :: cs) then some 0 else (findIdxSub p cs).map (· + 1)

/-- Matcher for the HTML comment pattern `<!--.*?-->` (re.DOTALL): the lazy
body ends at the first `-->`. -/
def matchComment (s : Str) : Option (Nat × Str) :=
  if ("<!--".toList).isPrefixOf s then
    match findIdxSub ("-->".toList) (s.drop 4) with
    | some i => some (4 + i + 3, [])
    | none => none
  else none

/-- The group `(\s*| [^/]+?)` followed by `>`, second alternative: a literal
space, then a shortest non-empty run of non-`/` characters, then `>`.  The
lazy run stops at the first `>` (which is itself a legal `[^/]` character,
so a `>` at run position 0 is consumed, not closed on); a `/` before that
`>` makes the alternative fail. -/
def altNonSlashGt (consumed : Nat) : Str → Option Nat
  | [] => none
  | c :: cs =>
    if 1 ≤ consumed ∧ c = '>' then some (consumed + 1)
    else if c = '/' then none
    else altNonSlashGt (consumed + 1) cs

/-- The group-and-close `(\s*| [^/]+?)>` of the garbage/wrapper tag
patterns.  First alternative (`\s*` then `>`) is determinate: it succeeds
iff the maximal whitespace run is followed by `>`. -/
def tagGroupEnd (s : Str) : Option Nat :=
  let w := wsRunLen s
  if (s.drop w).head? = some '>' then some (w + 1)
  else
    match s with
    | c :: rest => if c = ' ' then (altNonSlashGt 0 rest).map (fun k => 1 + k) else none
    | [] => none

/-- Matcher for an opening tag `<\s*TAG(\s*| [^/]+?)>`
(re.DOTALL, re.IGNORECASE), `TAG` given lowercase. -/
def matchOpenTag (tag : Str) (s : Str) : Option (Nat × Str) :=
  match s with
  | '<' :: r1 =>
    let w := wsRunLen r1
    let r2 := r1.drop w
    if lowerStr (r2.take tag.length) = tag then
      match tagGroupEnd (r2.drop tag.length) with
      | some g => some (1 + w + tag.length + g, [])
      | none => none
    else none
  | _ => none

/-- Matcher for a closing tag `<\s*/\s*TAG\s*>` (re.IGNORECASE). -/
def matchCloseTag (tag : Str) (s : Str) : Option (Nat × Str) :=
  match s with
  | '<' :: r1 =>
    let w1 := wsRunLen r1
    match r1.drop w1 with
    | '/' :: r2 =>
      let w2 := wsRunLen r2
      let r3 := r2.drop w2
      if lowerStr (r3.take tag.length) = tag then
        let r4 := r3.drop tag.length
        let w3 := wsRunLen r4
        if (r4.drop w3).head? = some '>' then
          some (1 + w1 + 1 + w2 + tag.length + w3 + 1, [])
        else none
      else none
    | _ => none
  | _ => none

/-- Earliest start of a closing-tag match in the subject (for the lazy
`.*?` between an opening and a closing tag): returns (index, match length). -/
def findCloseIdx (tag : Str) : Nat → Str → Option (Nat × Nat)
  | _, [] => none
  | 0, _ => none
  | fuel + 1, c :: cs =>
    match matchCloseTag tag (c :: cs) with
    | some (k, _) => some (0, k)
    | none => (findCloseIdx tag fuel cs).map (fun p => (p.1 + 1, p.2))

/-- Matcher for a whole tag block
`<\s*TAG(\s*| [^/]+?)>.*?<\s*/\s*TAG\s*>` (re.DOTALL, re.IGNORECASE), used
by the garbage-tag and placeholder-tag patterns.  (If the opening tag
matches but no closing tag follows, backtracking into the second
alternative of the opening group cannot help, because it only moves the
scan start for the closing tag further right.) -/
def matchTagBlock (tag : Str) (s : Str) : Option (Nat × Str) :=
  match matchOpenTag tag s with
  | some (ko, _) =>
    let rest := s.drop ko
    match findCloseIdx tag rest.length rest with
    | some (i, kc) => some (ko + i + kc, [])
    | none => none
  | none => none

/-- Variant of `matchTagBlock` whose payload is the matched text itself
(the placeholder pass replaces each matched block text globally). -/
def matchTagBlockStr (tag : Str) (s : Str) : Option (Nat × Str) :=
  match matchTagBlock tag s with
  | some (k, _) => some (k, s.take k)
  | none => none

/-- The closer `/\s*>` at the head of the suffix. -/
def slashGtEnd (s : Str) : Option Nat :=
  match s with
  | '/' :: r =>
    let w := wsRunLen r
    if (r.drop w).head? = some '>' then some (1 + w + 1) else none
  | _ => none

/-- Lazy `.+?` (re.DOTALL) followed by `/\s*>`: consume at least one
arbitrary character, then stop at the earliest position where `/\s*>`
matches. -/
def lazyAnyToSlashGt (consumed : Nat) : Str → Option Nat
  | [] => none
  | c :: cs =>
    if 1 ≤ consumed then
      match slashGtEnd (c :: cs) with
      | some k => some (consumed + k)
      | none => lazyAnyToSlashGt (consumed + 1) cs
    else lazyAnyToSlashGt (consumed + 1) cs

/-- The group-and-close `(\s*| .+?)/\s*>` of the well-formed single-tag
pattern. -/
def singleGroupEnd (s : Str) : Option Nat :=
  let w := wsRunLen s
  match slashGtEnd (s.drop w) with
  | some k => some (w + k)
  | none =>
    match s with
    | ' ' :: rest => (lazyAnyToSlashGt 0 rest).map (fun k => 1 + k)
    | _ => none

/-- Matcher for a well-formed self-closing single tag
`<\s*TAG(\s*| .+?)/\s*>` (re.DOTALL, re.IGNORECASE). -/
def matchSingleGood (tag : Str) (s : Str) : Option (Nat × Str) :=
  match s with
  | '<' :: r1 =>
    let w := wsRunLen r1
    let r2 := r1.drop w
    if lowerStr (r2.take tag.length) = tag then
      (singleGroupEnd (r2.drop tag.length)).map (fun g => (1 + w + tag.length + g, []))
    else none
  | _ => none

/-- The closer `\\?\s*>` at the head of the suffix.  If the optional
backslash is present but not followed by `\s*>`, backtracking to the empty
alternative also fails (a backslash is neither whitespace nor `>`). -/
def bslWsGt (s : Str) : Option Nat :=
  match s with
  | c :: r =>
    if c = bsl then
      let w := wsRunLen r
      if (r.drop w).head? = some '>' then some (1 + w + 1) else none
    else
      let w := wsRunLen (c :: r)
      if ((c :: r).drop w).head? = some '>' then some (w + 1) else none
  | [] => none

/-- Lazy `[^/]+?` followed by `\\?\s*>`: consume at least one non-`/`
character, stopping at the earliest position where `\\?\s*>` matches. -/
def lazyNonSlashToBslGt (consumed : Nat) : Str → Option Nat
  | [] => none
  | c :: cs =>
    if 1 ≤ consumed then
      match bslWsGt (c :: cs) with
      | some k => some (consumed + k)
      | none => if c = '/' then none else lazyNonSlashToBslGt (consumed + 1) cs
    else if c = '/' then none
    else lazyNonSlashToBslGt (consumed + 1) cs

/-- The group-and-close `(\s*| [^/]+?)\\?\s*>` of the malformed single-tag
pattern. -/
def badGroupEnd (s : Str) : Option Nat :=
  let w := wsRunLen s
  match bslWsGt (s.drop w) with
  | some k => some (w + k)
  | none =>
    match s with
    | ' ' :: rest => (lazyNonSlashToBslGt 0 rest).map (fun k => 1 + k)
    | _ => none

/-- Matcher for a malformed single tag
`<\s*(/|\\)?\s*TAG(\s*| [^/]+?)\\?\s*>` (re.DOTALL, re.IGNORECASE). -/
def matchSingleBad (tag : Str) (s : Str) : Option (Nat × Str) :=
  match s with
  | '<' :: r1 =>
    let w1 := wsRunLen r1
    let r2 := r1.drop w1
    let pr : Nat × Str :=
      match r2 with
      | c :: r =>
        if c = '/' ∨ c = bsl then (1 + wsRunLen r, r.drop (wsRunLen r)) else (0, r2)
      | [] => (0, r2)
    if lowerStr (pr.2.take tag.length) = tag then
      (badGroupEnd (pr.2.drop tag.length)).map (fun g => (1 + w1 + pr.1 + tag.length + g, []))
    else none
  | _ => none

/-- Lazy `[^{]*?` followed by `\}`: stop at the first closing brace; an
opening brace before it makes the match fail. -/
def lazyToRbr (consumed : Nat) : Str → Option Nat
  | [] => none
  | c :: cs =>
    if c = rbr then some (consumed + 1)
    else if c = lbr then none
    else lazyToRbr (consumed + 1) cs

/-- Matcher for the table/template pattern `\{[^{]*?\}` (re.DOTALL). -/
def matchTable (s : Str) : Option (Nat × Str) :=
  match s with
  | c :: cs => if c = lbr then (lazyToRbr 0 cs).map (fun k => (1 + k, [])) else none
  | [] => none

/-- Lazy `[^[]*?` followed by `\]\]`: stop at the first `]]`; a `[` before
it makes the match fail (a single `]` is a legal `[^[]` character and is
consumed). -/
def lazyToRBrk2 (consumed : Nat) : Str → Option Nat
  | [] => none
  | c :: cs =>
    if c = ']' ∧ cs.head? = some ']' then some (consumed + 2)
    else if c = '[' then none
    else lazyToRBrk2 (consumed + 1) cs

/-- Lazy `[^[]*?` followed by `\]`. -/
def lazyToRBrk1 (consumed : Nat) : Str → Option Nat
  | [] => none
  | c :: cs =>
    if c = ']' then some (consumed + 1)
    else if c = '[' then none
    else lazyToRBrk1 (consumed + 1) cs

/-- Matcher for a well-formed wikilink `\[\[[^[]*?\]\]` (re.DOTALL);
payload is the matched text. -/
def matchGoodWikilink (s : Str) : Option (Nat × Str) :=
  match s with
  | '[' :: '[' :: rest => (lazyToRBrk2 0 rest).map (fun k => (2 + k, s.take (2 + k)))
  | _ => none

/-- Matcher for a left-malformed wikilink `\[[^[]*?\]\]` (re.DOTALL);
payload is the matched text. -/
def matchBadLeftWikilink (s : Str) : Option (Nat × Str) :=
  match s with
  | '[' :: rest => (lazyToRBrk2 0 rest).map (fun k => (1 + k, s.take (1 + k)))
  | _ => none

/-- Matcher for a right-malformed wikilink `\[\[[^[]*?\]` (re.DOTALL);
payload is the matched text. -/
def matchBadRightWikilink (s : Str) : Option (Nat × Str) :=
  match s with
  | '[' :: '[' :: rest => (lazyToRBrk1 0 rest).map (fun k => (2 + k, s.take (2 + k)))
  | _ => none

/-- Lazy `.*?` (re.DOTALL) followed by `\]`: stop at the first `]`. -/
def lazyAnyToRBrk (consumed : Nat) : Str → Option Nat
  | [] => none
  | c :: cs => if c = ']' then some (consumed + 1) else lazyAnyToRBrk (consumed + 1) cs

/-- Matcher for the external-link pattern `\[http.*?\]`
(re.DOTALL, re.IGNORECASE). -/
def matchHttpLink (s : Str) : Option (Nat × Str) :=
  match s with
  | '[' :: rest =>
    if lowerStr (rest.take 4) = "http".toList then
      (lazyAnyToRBrk 0 (rest.drop 4)).map (fun k => (1 + 4 + k, []))
    else none
  | _ => none

/-- Matcher for a decimal numeric character reference `&#\d+?;`.  The lazy
digit run must be followed by `;`, so it is exactly the maximal digit run
after `&#` (at least one digit), immediately followed by `;`.  Payload:
the digit run. -/
def matchNumericEntity (s : Str) : Option (Nat × Str) :=
  match s with
  | '&' :: '#' :: rest =>
    let ds := rest.takeWhile Char.isDigit
    if ds ≠ [] ∧ (rest.drop ds.length).head? = some ';' then
      some (2 + ds.length + 1, ds)
    else none
  | _ => none

/-- Matcher for the multi-space pattern ` {2,}` (greedy: the maximal space
run of length at least 2). -/
def matchMultiSpace (s : Str) : Option (Nat × Str) :=
  let r := s.takeWhile (· = ' ')
  if 2 ≤ r.length then some (r.length, [' ']) else none

/-- Matcher for the multi-dot pattern `\.{4,}` (greedy: the maximal dot run
of length at least 4), replaced by an ellipsis. -/
def matchMultiDot (s : Str) : Option (Nat × Str) :=
  let r := s.takeWhile (· = '.')
  if 4 ≤ r.length then some (r.length, "...".toList) else none

/-- The literal `<a href="` (9 characters) opening an anchor marker. -/
def ahrefLit : Str := "<a href=".toList ++ [dq]

/-- Matcher for the anchor pattern `<a href="([^"]+)">([^>]+)</a>` of
`process_document`; payload is (group 1, group 2) = (uri, surface form).
`([^"]+)` runs to the first `"` (at least one character); `([^>]+)</a>`
forces the maximal non-`>` run after `">` to end in `</a` with the closing
`>` right after it, the greedy group 2 being that run without the `</a`
(which must leave group 2 non-empty). -/
def matchAnchor (s : Str) : Option (Nat × (Str × Str)) :=
  if ahrefLit.isPrefixOf s then
    let r1 := s.drop 9
    let uri := r1.takeWhile (· ≠ dq)
    if uri = [] then none
    else
      match r1.drop uri.length with
      | c :: d :: r3 =>
        if c = dq ∧ d = '>' then
          let rr := r3.takeWhile (· ≠ '>')
          if (r3.drop rr.length).head? = some '>' ∧ 4 ≤ rr.length ∧
             ("</a".toList).isSuffixOf rr then
            some (9 + uri.length + 2 + rr.length + 1, (uri, rr.take (rr.length - 3)))
          else none
        else none
      | _ => none
  else none

/-- Python's `\w` (ASCII part: the source applies it to article text, whose
markup-relevant characters are ASCII). -/
def isWordChar (c : Char) : Bool := c.isAlphanum || c = '_'

/-- Three apostrophes (the bold marker). -/
def tripleApos : Str := [apos, apos, apos]

/-- Two apostrophes (the italic marker). -/
def doubleApos : Str := [apos, apos]

/-- Lazy `[^']*?` followed by `[^\s']'''[^']`: walk the middle run (no
apostrophes allowed), at each position first trying to read the closing
content character, the `'''` and one trailing non-apostrophe character. -/
def lazyBoldEnd (consumed : Nat) : Str → Option Nat
  | [] => none
  | c :: cs =>
    if ¬ isPyWs c ∧ c ≠ apos ∧ tripleApos.isPrefixOf cs ∧
       ((cs.drop 3).head?.any (fun d => d ≠ apos)) = true then
      some (consumed + 1 + 3 + 1)
    else if c = apos then none
    else lazyBoldEnd (consumed + 1) cs

/-- Lazy `[^']*?` followed by `[^\s']''[^']` (italic variant). -/
def lazyItalicEnd (consumed : Nat) : Str → Option Nat
  | [] => none
  | c :: cs =>
    if ¬ isPyWs c ∧ c ≠ apos ∧ doubleApos.isPrefixOf cs ∧
       ((cs.drop 2).head?.any (fun d => d ≠ apos)) = true then
      some (consumed + 1 + 2 + 1)
    else if c = apos then none
    else lazyItalicEnd (consumed + 1) cs

/-- Matcher for the possessive-apostrophe bold pattern
`\w'('''[^\s'][^']*?[^\s']''')[^']` (re.DOTALL); payload is group 1
(the `'''…'''` span). -/
def matchAposBold (s : Str) : Option (Nat × Str) :=
  match s with
  | c0 :: c1 :: rest =>
    if isWordChar c0 ∧ c1 = apos ∧ tripleApos.isPrefixOf rest then
      match rest.drop 3 with
      | c2 :: rest2 =>
        if ¬ isPyWs c2 ∧ c2 ≠ apos then
          match lazyBoldEnd 0 rest2 with
          | some k => some (2 + 3 + 1 + k, (s.drop 2).take (k + 3))
          | none => none
        else none
      | [] => none
    else none
  | _ => none

/-- Matcher for the possessive-apostrophe italic pattern
`\w'(''[^\s'][^']*?[^\s']'')[^']` (re.DOTALL); payload is group 1
(the `''…''` span). -/
def matchAposItalic (s : Str) : Option (Nat × Str) :=
  match s with
  | c0 :: c1 :: rest =>
    if isWordChar c0 ∧ c1 = apos ∧ doubleApos.isPrefixOf rest then
      match rest.drop 2 with
      | c2 :: rest2 =>
        if ¬ isPyWs c2 ∧ c2 ≠ apos then
          match lazyItalicEnd 0 rest2 with
          | some k => some (2 + 2 + 1 + k, (s.drop 2).take (k + 2))
          | none => none
        else none
      | [] => none
    else none
  | _ => none

/-!  Data of the extractor class: tag lists, namespace lists and the
named-entity table, in source order. -/

/-- `__garbage_tags`. -/
def garbage_tags : List Str :=
  ["ref".toList, "gallery".toList, "timeline".toList, "noinclude".toList,
   "pre".toList, "table".toList, "tr".toList, "td".toList, "ul".toList,
   "li".toList, "ol".toList, "dl".toList, "dt".toList, "dd".toList,
   "menu".toList, "dir".toList]

/-- `__wrapper_tags`. -/
def wrapper_tags : List Str :=
  ["nowiki".toList, "cite".toList, "source".toList, "hiero".toList,
   "div".toList, "font".toList, "span".toList, "strong".toList,
   "strike".toList, "blockquote".toList, "tt".toList, "var".toList,
   "sup".toList, "sub".toList, "big".toList, "small".toList,
   "center".toList, "h1".toList, "h2".toList, "h3".toList, "em".toList,
   "b".toList, "i".toList, "u".toList, "a".toList, "s".toList, "p".toList]

/-- `__single_tags`. -/
def single_tags : List Str :=
  ["references".toList, "ref".toList, "img".toList, "br".toList,
   "hr".toList, "li".toList, "dt".toList, "dd".toList]

/-- `__project_namespaces`. -/
def project_namespaces : List Str :=
  ["wikipedia".toList, "mediawiki".toList, "wikiquote".toList,
   "wikibooks".toList, "wikisource".toList, "wiktionary".toList,
   "wikispecies".toList, "wikinews".toList, "wikiversity".toList,
   "commons".toList, "wikicities".toList, "wikispot".toList]

/-- `__garbage_link_prefixes`. -/
def garbage_link_prefixes : List Str :=
  ["image".toList, "category".toList, "file".toList, "http".toList,
   "https".toList, "simple".toList, "meta".toList, "wikipedia".toList,
   "media".toList, "template".toList, "portal".toList, "user".toList,
   "wikt".toList, "wikihow".toList, "help".toList, "user talk".toList,
   "special".toList, "s".toList, "b".toList, "v".toList, "q".toList,
   "?".toList]

/-- `__allowed_prefixes`. -/
def allowed_prefixes : List Str := ["w:".toList, "en:".toList]

/-- `__garbage_page_prefixes`. -/
def garbage_page_prefixes : List Str :=
  ["Image:".toList, "File:".toList, "Wikipedia:".toList,
   "Template:".toList, "Portal:".toList, "User:".toList, "Help:".toList,
   "Book:".toList, "Draft:".toList, "Module:".toList,
   "TimedText:".toList, "MediaWiki:".toList]

/-- `__char_entities`, in source (insertion) order, which is also the
iteration order of the decoding loop. -/
def char_entities : List (Str × Char) := [
  ("&nbsp;".toList, Char.ofNat 0x00A0),
  ("&iexcl;".toList, Char.ofNat 0x00A1),
  ("&cent;".toList, Char.ofNat 0x00A2),
  ("&pound;".toList, Char.ofNat 0x00A3),
  ("&curren;".toList, Char.ofNat 0x00A4),
  ("&yen;".toList, Char.ofNat 0x00A5),
  ("&brvbar;".toList, Char.ofNat 0x00A6),
  ("&sect;".toList, Char.ofNat 0x00A7),
  ("&uml;".toList, Char.ofNat 0x00A8),
  ("&copy;".toList, Char.ofNat 0x00A9),
  ("&ordf;".toList, Char.ofNat 0x00AA),
  ("&laquo;".toList, Char.ofNat 0x00AB),
  ("&not;".toList, Char.ofNat 0x00AC),
  ("&shy;".toList, Char.ofNat 0x00AD),
  ("&reg;".toList, Char.ofNat 0x00AE),
  ("&macr;".toList, Char.ofNat 0x00AF),
  ("&deg;".toList, Char.ofNat 0x00B0),
  ("&plusmn;".toList, Char.ofNat 0x00B1),
  ("&sup2;".toList, Char.ofNat 0x00B2),
  ("&sup3;".toList, Char.ofNat 0x00B3),
  ("&acute;".toList, Char.ofNat 0x00B4),
  ("&micro;".toList, Char.ofNat 0x00B5),
  ("&para;".toList, Char.ofNat 0x00B6),
  ("&middot;".toList, Char.ofNat 0x00B7),
  ("&cedil;".toList, Char.ofNat 0x00B8),
  ("&sup1;".toList, Char.ofNat 0x00B9),
  ("&ordm;".toList, Char.ofNat 0x00BA),
  ("&raquo;".toList, Char.ofNat 0x00BB),
  ("&frac14;".toList, Char.ofNat 0x00BC),
  ("&frac12;".toList, Char.ofNat 0x00BD),
  ("&frac34;".toList, Char.ofNat 0x00BE),
  ("&iquest;".toList, Char.ofNat 0x00BF),
  ("&Agrave;".toList, Char.ofNat 0x00C0),
  ("&Aacute;".toList, Char.ofNat 0x00C1),
  ("&Acirc;".toList, Char.ofNat 0x00C2),
  ("&Atilde;".toList, Char.ofNat 0x00C3),
  ("&Auml;".toList, Char.ofNat 0x00C4),
  ("&Aring;".toList, Char.ofNat 0x00C5),
  ("&AElig;".toList, Char.ofNat 0x00C6),
  ("&Ccedil;".toList, Char.ofNat 0x00C7),
  ("&Egrave;".toList, Char.ofNat 0x00C8),
  ("&Eacute;".toList, Char.ofNat 0x00C9),
  ("&Ecirc;".toList, Char.ofNat 0x00CA),
  ("&Euml;".toList, Char.ofNat 0x00CB),
  ("&Igrave;".toList, Char.ofNat 0x00CC),
  ("&Iacute;".toList, Char.ofNat 0x00CD),
  ("&Icirc;".toList, Char.ofNat 0x00CE),
  ("&Iuml;".toList, Char.ofNat 0x00CF),
  ("&ETH;".toList, Char.ofNat 0x00D0),
  ("&Ntilde;".toList, Char.ofNat 0x00D1),
  ("&Ograve;".toList, Char.ofNat 0x00D2),
  ("&Oacute;".toList, Char.ofNat 0x00D3),
  ("&Ocirc;".toList, Char.ofNat 0x00D4),
  ("&Otilde;".toList, Char.ofNat 0x00D5),
  ("&Ouml;".toList, Char.ofNat 0x00D6),
  ("&times;".toList, Char.ofNat 0x00D7),
  ("&Oslash;".toList, Char.ofNat 0x00D8),
  ("&Ugrave;".toList, Char.ofNat 0x00D9),
  ("&Uacute;".toList, Char.ofNat 0x00DA),
  ("&Ucirc;".toList, Char.ofNat 0x00DB),
  ("&Uuml;".toList, Char.ofNat 0x00DC),
  ("&Yacute;".toList, Char.ofNat 0x00DD),
  ("&THORN;".toList, Char.ofNat 0x00DE),
  ("&szlig;".toList, Char.ofNat 0x00DF),
  ("&agrave;".toList, Char.ofNat 0x00E0),
  ("&aacute;".toList, Char.ofNat 0x00E1),
  ("&acirc;".toList, Char.ofNat 0x00E2),
  ("&atilde;".toList, Char.ofNat 0x00E3),
  ("&auml;".toList, Char.ofNat 0x00E4),
  ("&aring;".toList, Char.ofNat 0x00E5),
  ("&aelig;".toList, Char.ofNat 0x00E6),
  ("&ccedil;".toList, Char.ofNat 0x00E7),
  ("&egrave;".toList, Char.ofNat 0x00E8),
  ("&eacute;".toList, Char.ofNat 0x00E9),
  ("&ecirc;".toList, Char.ofNat 0x00EA),
  ("&euml;".toList, Char.ofNat 0x00EB),
  ("&igrave;".toList, Char.ofNat 0x00EC),
  ("&iacute;".toList, Char.ofNat 0x00ED),
  ("&icirc;".toList, Char.ofNat 0x00EE),
  ("&iuml;".toList, Char.ofNat 0x00EF),
  ("&eth;".toList, Char.ofNat 0x00F0),
  ("&ntilde;".toList, Char.ofNat 0x00F1),
  ("&ograve;".toList, Char.ofNat 0x00F2),
  ("&oacute;".toList, Char.ofNat 0x00F3),
  ("&ocirc;".toList, Char.ofNat 0x00F4),
  ("&otilde;".toList, Char.ofNat 0x00F5),
  ("&ouml;".toList, Char.ofNat 0x00F6),
  ("&divide;".toList, Char.ofNat 0x00F7),
  ("&oslash;".toList, Char.ofNat 0x00F8),
  ("&ugrave;".toList, Char.ofNat 0x00F9),
  ("&uacute;".toList, Char.ofNat 0x00FA),
  ("&ucirc;".toList, Char.ofNat 0x00FB),
  ("&uuml;".toList, Char.ofNat 0x00FC),
  ("&yacute;".toList, Char.ofNat 0x00FD),
  ("&thorn;".toList, Char.ofNat 0x00FE),
  ("&yuml;".toList, Char.ofNat 0x00FF),
  ("&fnof;".toList, Char.ofNat 0x0192),
  ("&Alpha;".toList, Char.ofNat 0x0391),
  ("&Beta;".toList, Char.ofNat 0x0392),
  ("&Gamma;".toList, Char.ofNat 0x0393),
  ("&Delta;".toList, Char.ofNat 0x0394),
  ("&Epsilon;".toList, Char.ofNat 0x0395),
  ("&Zeta;".toList, Char.ofNat 0x0396),
  ("&Eta;".toList, Char.ofNat 0x0397),
  ("&Theta;".toList, Char.ofNat 0x0398),
  ("&Iota;".toList, Char.ofNat 0x0399),
  ("&Kappa;".toList, Char.ofNat 0x039A),
  ("&Lambda;".toList, Char.ofNat 0x039B),
  ("&Mu;".toList, Char.ofNat 0x039C),
  ("&Nu;".toList, Char.ofNat 0x039D),
  ("&Xi;".toList, Char.ofNat 0x039E),
  ("&Omicron;".toList, Char.ofNat 0x039F),
  ("&Pi;".toList, Char.ofNat 0x03A0),
  ("&Rho;".toList, Char.ofNat 0x03A1),
  ("&Sigma;".toList, Char.ofNat 0x03A3),
  ("&Tau;".toList, Char.ofNat 0x03A4),
  ("&Upsilon;".toList, Char.ofNat 0x03A5),
  ("&Phi;".toList, Char.ofNat 0x03A6),
  ("&Chi;".toList, Char.ofNat 0x03A7),
  ("&Psi;".toList, Char.ofNat 0x03A8),
  ("&Omega;".toList, Char.ofNat 0x03A9),
  ("&alpha;".toList, Char.ofNat 0x03B1),
  ("&beta;".toList, Char.ofNat 0x03B2),
  ("&gamma;".toList, Char.ofNat 0x03B3),
  ("&delta;".toList, Char.ofNat 0x03B4),
  ("&epsilon;".toList, Char.ofNat 0x03B5),
  ("&zeta;".toList, Char.ofNat 0x03B6),
  ("&eta;".toList, Char.ofNat 0x03B7),
  ("&theta;".toList, Char.ofNat 0x03B8),
  ("&iota;".toList, Char.ofNat 0x03B9),
  ("&kappa;".toList, Char.ofNat 0x03BA),
  ("&lambda;".toList, Char.ofNat 0x03BB),
  ("&mu;".toList, Char.ofNat 0x03BC),
  ("&nu;".toList, Char.ofNat 0x03BD),
  ("&xi;".toList, Char.ofNat 0x03BE),
  ("&omicron;".toList, Char.ofNat 0x03BF),
  ("&pi;".toList, Char.ofNat 0x03C0),
  ("&rho;".toList, Char.ofNat 0x03C1),
  ("&sigmaf;".toList, Char.ofNat 0x03C2),
  ("&sigma;".toList, Char.ofNat 0x03C3),
  ("&tau;".toList, Char.ofNat 0x03C4),
  ("&upsilon;".toList, Char.ofNat 0x03C5),
  ("&phi;".toList, Char.ofNat 0x03C6),
  ("&chi;".toList, Char.ofNat 0x03C7),
  ("&psi;".toList, Char.ofNat 0x03C8),
  ("&omega;".toList, Char.ofNat 0x03C9),
  ("&thetasym;".toList, Char.ofNat 0x03D1),
  ("&upsih;".toList, Char.ofNat 0x03D2),
  ("&piv;".toList, Char.ofNat 0x03D6),
  ("&bull;".toList, Char.ofNat 0x2022),
  ("&hellip;".toList, Char.ofNat 0x2026),
  ("&prime;".toList, Char.ofNat 0x2032),
  ("&Prime;".toList, Char.ofNat 0x2033),
  ("&oline;".toList, Char.ofNat 0x203E),
  ("&frasl;".toList, Char.ofNat 0x2044),
  ("&weierp;".toList, Char.ofNat 0x2118),
  ("&image;".toList, Char.ofNat 0x2111),
  ("&real;".toList, Char.ofNat 0x211C),
  ("&trade;".toList, Char.ofNat 0x2122),
  ("&alefsym;".toList, Char.ofNat 0x2135),
  ("&larr;".toList, Char.ofNat 0x2190),
  ("&uarr;".toList, Char.ofNat 0x2191),
  ("&rarr;".toList, Char.ofNat 0x2192),
  ("&darr;".toList, Char.ofNat 0x2193),
  ("&harr;".toList, Char.ofNat 0x2194),
  ("&crarr;".toList, Char.ofNat 0x21B5),
  ("&lArr;".toList, Char.ofNat 0x21D0),
  ("&uArr;".toList, Char.ofNat 0x21D1),
  ("&rArr;".toList, Char.ofNat 0x21D2),
  ("&dArr;".toList, Char.ofNat 0x21D3),
  ("&hArr;".toList, Char.ofNat 0x21D4),
  ("&forall;".toList, Char.ofNat 0x2200),
  ("&part;".toList, Char.ofNat 0x2202),
  ("&exist;".toList, Char.ofNat 0x2203),
  ("&empty;".toList, Char.ofNat 0x2205),
  ("&nabla;".toList, Char.ofNat 0x2207),
  ("&isin;".toList, Char.ofNat 0x2208),
  ("&notin;".toList, Char.ofNat 0x2209),
  ("&ni;".toList, Char.ofNat 0x220B),
  ("&prod;".toList, Char.ofNat 0x220F),
  ("&sum;".toList, Char.ofNat 0x2211),
  ("&minus;".toList, Char.ofNat 0x2212),
  ("&lowast;".toList, Char.ofNat 0x2217),
  ("&radic;".toList, Char.ofNat 0x221A),
  ("&prop;".toList, Char.ofNat 0x221D),
  ("&infin;".toList, Char.ofNat 0x221E),
  ("&ang;".toList, Char.ofNat 0x2220),
  ("&and;".toList, Char.ofNat 0x2227),
  ("&or;".toList, Char.ofNat 0x2228),
  ("&cap;".toList, Char.ofNat 0x2229),
  ("&cup;".toList, Char.ofNat 0x222A),
  ("&int;".toList, Char.ofNat 0x222B),
  ("&there4;".toList, Char.ofNat 0x2234),
  ("&sim;".toList, Char.ofNat 0x223C),
  ("&cong;".toList, Char.ofNat 0x2245),
  ("&asymp;".toList, Char.ofNat 0x2248),
  ("&ne;".toList, Char.ofNat 0x2260),
  ("&equiv;".toList, Char.ofNat 0x2261),
  ("&le;".toList, Char.ofNat 0x2264),
  ("&ge;".toList, Char.ofNat 0x2265),
  ("&sub;".toList, Char.ofNat 0x2282),
  ("&sup;".toList, Char.ofNat 0x2283),
  ("&nsub;".toList, Char.ofNat 0x2284),
  ("&sube;".toList, Char.ofNat 0x2286),
  ("&supe;".toList, Char.ofNat 0x2287),
  ("&oplus;".toList, Char.ofNat 0x2295),
  ("&otimes;".toList, Char.ofNat 0x2297),
  ("&perp;".toList, Char.ofNat 0x22A5),
  ("&sdot;".toList, Char.ofNat 0x22C5),
  ("&lceil;".toList, Char.ofNat 0x2308),
  ("&rceil;".toList, Char.ofNat 0x2309),
  ("&lfloor;".toList, Char.ofNat 0x230A),
  ("&rfloor;".toList, Char.ofNat 0x230B),
  ("&lang;".toList, Char.ofNat 0x2329),
  ("&rang;".toList, Char.ofNat 0x232A),
  ("&loz;".toList, Char.ofNat 0x25CA),
  ("&spades;".toList, Char.ofNat 0x2660),
  ("&clubs;".toList, Char.ofNat 0x2663),
  ("&hearts;".toList, Char.ofNat 0x2665),
  ("&diams;".toList, Char.ofNat 0x2666),
  ("&quot;".toList, Char.ofNat 0x0022),
  ("&lt;".toList, Char.ofNat 0x003C),
  ("&gt;".toList, Char.ofNat 0x003E),
  ("&OElig;".toList, Char.ofNat 0x0152),
  ("&oelig;".toList, Char.ofNat 0x0153),
  ("&Scaron;".toList, Char.ofNat 0x0160),
  ("&scaron;".toList, Char.ofNat 0x0161),
  ("&Yuml;".toList, Char.ofNat 0x0178),
  ("&circ;".toList, Char.ofNat 0x02C6),
  ("&tilde;".toList, Char.ofNat 0x02DC),
  ("&ensp;".toList, Char.ofNat 0x2002),
  ("&emsp;".toList, Char.ofNat 0x2003),
  ("&thinsp;".toList, Char.ofNat 0x2009),
  ("&zwnj;".toList, Char.ofNat 0x200C),
  ("&zwj;".toList, Char.ofNat 0x200D),
  ("&lrm;".toList, Char.ofNat 0x200E),
  ("&rlm;".toList, Char.ofNat 0x200F),
  ("&ndash;".toList, Char.ofNat 0x2013),
  ("&mdash;".toList, Char.ofNat 0x2014),
  ("&lsquo;".toList, Char.ofNat 0x2018),
  ("&rsquo;".toList, Char.ofNat 0x2019),
  ("&sbquo;".toList, Char.ofNat 0x201A),
  ("&ldquo;".toList, Char.ofNat 0x201C),
  ("&rdquo;".toList, Char.ofNat 0x201D),
  ("&bdquo;".toList, Char.ofNat 0x201E),
  ("&dagger;".toList, Char.ofNat 0x2020),
  ("&Dagger;".toList, Char.ofNat 0x2021),
  ("&permil;".toList, Char.ofNat 0x2030),
  ("&lsaquo;".toList, Char.ofNat 0x2039),
  ("&rsaquo;".toList, Char.ofNat 0x203A),
  ("&euro;".toList, Char.ofNat 0x20AC)]

/-- Extractor configuration (`AnnotatedWikiExtractor.__init__` parameters).
The source field `self.prefix` is named `base_url` here. -/
structure Config where
  base_url : Str
  drop_lists : Bool
  drop_enumerations : Bool
  drop_tables : Bool
  drop_indents : Bool
  keep_anchors : Bool
deriving DecidableEq

/-- The default extractor configuration built at module load
(`AnnotatedWikiExtractor(prefix=default_prefix, ...)`). -/
def defaultConfig : Config :=
  { base_url := "http://en.wikipedia.org/wiki/".toList
    drop_lists := false
    drop_enumerations := false
    drop_tables := false
    drop_indents := false
    keep_anchors := false }

/-- `get_wiki_document_url` for the `quote=False` branch, which is the one
every pipeline call site uses (the `quote=True` branch is never taken in
this program).  `title[0]` raises `IndexError` on an empty title, embedded
as `none`. -/
def get_wiki_document_url (title : Str) (base_url : Str) : Option Str :=
  match replaceAll [' '] ['_'] title with
  | [] => none
  | c :: cs => some (base_url ++ pyUpperChar c :: cs)

/-- Leading-colon removal of `__handle_wikilink`. -/
def wikilinkStripColon (wl : Str) : Str :=
  if wl.head? = some ':' then wl.drop 1 else wl

/-- The allowed-prefix loop of `__handle_wikilink`: the check is done on the
stripped lower-cased link, but the slice is taken from the raw link, exactly
as in the source; the loop breaks at the first hit. -/
def stripAllowedLoop : List Str → Str → Str
  | [], wl => wl
  | p :: ps, wl =>
    if p.isPrefixOf (lowerStr (pyStrip wl)) then wl.drop p.length
    else stripAllowedLoop ps wl

/-- The link normalisation shared by the category sink and the
title/text resolution of `__handle_wikilink`. -/
def wikilinkNormalize (wl : Str) : Str :=
  stripAllowedLoop allowed_prefixes (wikilinkStripColon wl)

/-- Python `str.islower()` (ASCII part): at least one cased character and
no upper-case character. -/
def pyIslower (s : Str) : Bool :=
  s.any Char.isAlpha && s.all (fun c => c.isUpper = false)

/-- Python `str.isalpha()` (ASCII part). -/
def pyIsalpha (s : Str) : Bool := (¬ s.isEmpty) && s.all Char.isAlpha

/-- The category-sink effect of `__handle_wikilink`
(`categories_sink.add(parts[0])` when the cleaned target starts with
`category:`).  The Python sink is a `set`; it is embedded as an
insertion-ordered duplicate-free list. -/
def wikilinkAddCats (wl : Str) (cats : List Str) : List Str :=
  let parts := splitOnChar pipeC (wikilinkNormalize wl)
  let p0 := parts.headD []
  if ("category:".toList).isPrefixOf (lowerStr (pyStrip p0)) then
    if cats.contains p0 then cats else cats ++ [p0]
  else cats

/-- The pure (title, link text) result of `__handle_wikilink`. -/
def handle_wikilink (wl : Str) : Str × Str :=
  let w := wikilinkNormalize wl
  let parts := splitOnChar pipeC w
  let p0 := parts.headD []
  let wclean := lowerStr (pyStrip p0)
  if (garbage_link_prefixes ++ project_namespaces).any
      (fun p => (p ++ [':']).isPrefixOf wclean) then ([], [])
  else
    let tokens := splitOnChar ':' p0
    let t0 := tokens.headD []
    if 1 < tokens.length ∧ t0.length ≤ 3 ∧ pyIslower t0 ∧ pyIsalpha t0 then
      ([], [])
    else
      match parts with
      | [a] => (a, a)
      | [a, b] => (a, b)
      | _ => ([], [])

/-- `__get_anchor_tag`.  In the third branch `document_title` is non-empty,
so `get_wiki_document_url` cannot fail there and the `getD` default is
unreachable. -/
def get_anchor_tag (document_title link_text : Str) : Str :=
  if link_text.isEmpty then []
  else if document_title.isEmpty then link_text
  else
    ahrefLit ++ ((get_wiki_document_url document_title []).getD []) ++
      [dq, '>'] ++ link_text ++ "</a>".toList

/-- `__handle_unicode` applied to the digits of `&#DIGITS;`
(`int(entity[2:-1])`).  `Char.ofNat` agrees with Python `chr` on every
unicode scalar value; the (lone-surrogate) range 0xD800-0xDFFF is not
representable in `Char`, and theorems touching this function restrict to
scalar values. -/
def handle_unicode (ds : Str) : Str :=
  let numeric_code := digitsVal ds
  if 0x10000 ≤ numeric_code then [] else [Char.ofNat numeric_code]

/-- The placeholder-tag pass of `__clean`: collect the block matches of the
original text (the `finditer` iterator walks the string captured at loop
entry), then replace each matched text globally by `PLACEHOLDER_INDEX`,
with the index starting at 1. -/
def placeholderPass (tag ph : Str) (s : Str) : Str :=
  ((collectAll (matchTagBlockStr tag) s).foldl
    (fun ti m =>
      (replaceAll m (ph ++ ['_'] ++ (Nat.repr ti.2).toList) ti.1, ti.2 + 1))
    (s, 1)).1

/-- First well-formed wikilink pass of `__clean`: each match (collected from
the text at loop entry) is resolved with the category sink attached and
globally replaced by its anchor tag. -/
def goodWikilinkPass1 (s : Str) (cats : List Str) : Str × List Str :=
  (collectAll matchGoodWikilink s).foldl
    (fun tc m =>
      let inner := pySlice 2 2 m
      let tl := handle_wikilink inner
      (replaceAll m (get_anchor_tag tl.1 tl.2) tc.1,
       wikilinkAddCats inner tc.2))
    (s, cats)

/-- Second well-formed wikilink pass of `__clean` (one level of
link-in-link): each match is globally replaced by its link text only; no
category sink is attached. -/
def goodWikilinkPass2 (s : Str) : Str :=
  (collectAll matchGoodWikilink s).foldl
    (fun t m => replaceAll m (handle_wikilink (pySlice 2 2 m)).2 t) s

/-- Left-malformed wikilink pass of `__clean` (`wikilink[1:-2]`). -/
def badLeftWikilinkPass (s : Str) (cats : List Str) : Str × List Str :=
  (collectAll matchBadLeftWikilink s).foldl
    (fun tc m =>
      let inner := pySlice 1 2 m
      let tl := handle_wikilink inner
      (replaceAll m (get_anchor_tag tl.1 tl.2) tc.1,
       wikilinkAddCats inner tc.2))
    (s, cats)

/-- Right-malformed wikilink pass of `__clean` (`wikilink[2:-1]`). -/
def badRightWikilinkPass (s : Str) (cats : List Str) : Str × List Str :=
  (collectAll matchBadRightWikilink s).foldl
    (fun tc m =>
      let inner := pySlice 2 1 m
      let tl := handle_wikilink inner
      (replaceAll m (get_anchor_tag tl.1 tl.2) tc.1,
       wikilinkAddCats inner tc.2))
    (s, cats)

/-- Bold-apostrophe pass of `__clean`: each group-1 span `\'\'\'…\'\'\'` is
globally replaced by its interior. -/
def aposBoldPass (s : Str) : Str :=
  (collectAll matchAposBold s).foldl
    (fun t g => replaceAll g (pySlice 3 3 g) t) s

/-- Italic-apostrophe pass of `__clean`: each group-1 span `\'\'…\'\'` is
globally replaced by `&quot;interior&quot;`. -/
def aposItalicPass (s : Str) : Str :=
  (collectAll matchAposItalic s).foldl
    (fun t g =>
      replaceAll g ("&quot;".toList ++ pySlice 2 2 g ++ "&quot;".toList) t) s

/-- Numeric-entity pass of `__clean`: collect the `&#\d+?;` matches of the
text at loop entry, then globally replace each matched reference by its
decoding. -/
def numericEntitiesPass (s : Str) : Str :=
  (collectAll matchNumericEntity s).foldl
    (fun t ds => replaceAll ("&#".toList ++ ds ++ [';']) (handle_unicode ds) t) s

/-- The literal `{{end box}}`. -/
def endBoxPat : Str := [lbr, lbr] ++ "end box".toList ++ [rbr, rbr]

/-- `__clean`, as a pure function from (text, categories) to
(text, categories), following the source pass for pass. -/
def clean (text0 : Str) (cats0 : List Str) : Str × List Str :=
  let t := replaceAll ("&lt;".toList) ['<'] text0
  let t := replaceAll ("&gt;".toList) ['>'] t
  let t := replaceAll ("<<".toList) repl2 t
  let t := replaceAll (">>".toList) repl2 t
  let t := subAll matchComment t
  let t := garbage_tags.foldl (fun u tag => subAll (matchTagBlock tag) u) t
  let t := wrapper_tags.foldl
    (fun u tag => subAll (matchCloseTag tag) (subAll (matchOpenTag tag) u)) t
  let t := single_tags.foldl
    (fun u tag => subAll (matchSingleBad tag) (subAll (matchSingleGood tag) u)) t
  let t := placeholderPass ("math".toList) ("formula".toList) t
  let t := placeholderPass ("code".toList) ("codice".toList) t
  let t := replaceAll endBoxPat [rbr] t
  let t := replaceAll [lbr, lbr] [lbr] t
  let t := replaceAll [rbr, rbr] [rbr] t
  let t := replaceAll [lbr, pipeC] [lbr] t
  let t := replaceAll [pipeC, rbr] [rbr] t
  let t := subAll matchTable (subAll matchTable (subAll matchTable t))
  let tc := goodWikilinkPass1 t cats0
  let t := goodWikilinkPass2 tc.1
  let tc2 := badLeftWikilinkPass t tc.2
  let tc3 := badRightWikilinkPass tc2.1 tc2.2
  let t := replaceAll ("[[".toList) [] tc3.1
  let t := replaceAll ("]]".toList) [] t
  let t := replaceAll ("[]".toList) [] (subAll matchHttpLink t)
  let t := aposBoldPass t
  let t := aposItalicPass t
  let t := replaceAll tripleApos [] t
  let t := replaceAll doubleApos ("&quot;".toList) t
  let t := replaceAll ("&amp;".toList) ['&'] t
  let t := replaceAll ("&quot;&quot;".toList) ("&quot;".toList) t
  let t := char_entities.foldl (fun u e => replaceAll e.1 [e.2] u) t
  let t := numericEntitiesPass t
  let t := replaceAll [Char.ofNat 9] [' '] t
  let t := subAll matchMultiSpace t
  let t := subAll matchMultiDot t
  let t := replaceAll (" ,".toList) (",".toList) t
  let t := replaceAll (" .".toList) (".".toList) t
  let t := replaceAll (" :".toList) (":".toList) t
  let t := replaceAll (" ;".toList) (";".toList) t
  let t := replaceAll (",,".toList) (",".toList) t
  let t := replaceAll (",.".toList) (".".toList) t
  let t := replaceAll ("( ".toList) ("(".toList) t
  let t := replaceAll (" )".toList) (")".toList) t
  let t := replaceAll ("[ ".toList) ("[".toList) t
  let t := replaceAll (" ]".toList) ("]".toList) t
  let t := replaceAll (repl2 ++ [' ']) repl2 t
  let t := replaceAll ([' '] ++ repl2) repl2 t
  (t, tc3.2)

/-- Characters whose absence already-cleaned plain text requires: every
markup pass of `__clean` can only fire at one of these, or its literal
pattern contains one of them. -/
def plainForbiddenChars : List Char :=
  ['<', '>', '[', ']', lbr, rbr, pipeC, '&', apos, Char.ofNat 9,
   Char.ofNat 0xFFFD]

/-- Substrings whose absence already-cleaned plain text requires: the
whitespace and punctuation artifacts normalised by the final passes of
`__clean`. -/
def plainForbiddenSubs : List Str :=
  ["  ".toList, "....".toList, " ,".toList, " .".toList, " :".toList,
   " ;".toList, ",,".toList, ",.".toList, "( ".toList, " )".toList]

/-- Already-cleaned plain text: free of the markup characters and of the
normalisation artifacts that the passes of `__clean` target. -/
def cleanPlain (s : Str) : Bool :=
  plainForbiddenChars.all (fun c => !(containsChar c s)) &&
  plainForbiddenSubs.all (fun p => !(containsSub p s))

/-!  The document record, page extraction, compaction, annotation and
classification. -/

/-- One recorded link annotation (the `{"uri": …, "surface_form": …,
"offset": …}` entries of `process_document`). -/
structure Ann where
  uri : Str
  surface_form : Str
  offset : Int
deriving DecidableEq

/-- `AnnotatedWikiDocument`.  The source initialises `annotations` to
`None` and always assigns it in `process_document` before any use; it is
embedded with initial value `[]`.  `categories` is a Python `set`,
embedded as an insertion-ordered duplicate-free list. -/
structure AnnotatedWikiDocument where
  id : Option Int
  title : Option Str
  url : Option Str
  text : Option Str
  annotations : List Ann
  categories : List Str
deriving DecidableEq

/-- A freshly constructed `AnnotatedWikiDocument()`. -/
def emptyDoc : AnnotatedWikiDocument :=
  { id := none, title := none, url := none, text := none,
    annotations := [], categories := [] }

/-- `reject_page`: case-sensitive prefix match against
`__garbage_page_prefixes`. -/
def reject_page (title : Str) : Bool :=
  garbage_page_prefixes.any (fun p => p.isPrefixOf title)

/-- `__is_redirect` on the document text:
`text.lstrip().lower().startswith("#redirect")`. -/
def is_redirect (text : Str) : Bool :=
  ("#redirect".toList).isPrefixOf (lowerStr (pyLStrip text))

/-- `__is_category_page` on the document title:
`title.lower().startswith("category:")`. -/
def is_category_page (title : Str) : Bool :=
  ("category:".toList).isPrefixOf (lowerStr title)

/-- Python truthiness test `not wiki_document.id` (unset when `None` or
`0`). -/
def idUnset (d : AnnotatedWikiDocument) : Bool :=
  d.id = none ∨ d.id = some 0

/-- Python truthiness test `not wiki_document.url` (unset when `None` or
empty). -/
def urlUnset (d : AnnotatedWikiDocument) : Bool :=
  d.url = none ∨ d.url = some []

/-- Outcome of one step (or a partial run) of the `extract_raw_document`
line loop: either the function already returned (`halt`, carrying a raised
exception as `.error` or an early `return None` as `.ok none`), or the
loop continues with an updated document. -/
inductive ExOut where
  | halt (r : Except Unit (Option AnnotatedWikiDocument))
  | cont (d : AnnotatedWikiDocument)

/-- Appending a body line (`wiki_document.text += chr(10) + line`).
Before the title line has been seen, `text` is `None` and the `+=` raises
(TypeError), embedded as `.error`. -/
def appendBody (d : AnnotatedWikiDocument) (l : Str) : ExOut :=
  match d.text with
  | none => .halt (.error ())
  | some t => .cont { d with text := some (t ++ Char.ofNat 10 :: l) }

/-- One iteration of the `extract_raw_document` loop body (page line `l`).
The `quote` parameter of the source is `False` at every pipeline call
site. -/
def extractStep (cfg : Config) (d : AnnotatedWikiDocument) (l : Str) : ExOut :=
  if l.isEmpty then .cont d
  else if idUnset d ∧ ("<id>".toList).isPrefixOf l ∧
      ("</id>".toList).isSuffixOf l then
    match pyInt (pySlice 4 5 l) with
    | none => .halt (.error ())
    | some n => .cont { d with id := some n }
  else if urlUnset d ∧ ("<title>".toList).isPrefixOf l ∧
      ("</title>".toList).isSuffixOf l then
    let title := replaceAll ("&amp;".toList) ['&'] (pySlice 7 8 l)
    if reject_page title then .halt (.ok none)
    else
      match get_wiki_document_url title cfg.base_url with
      | none => .halt (.error ())
      | some u =>
        .cont { d with title := some title
                       url := some u
                       text := some ("++".toList ++ title ++ "++".toList) }
  else if ("<text".toList).isPrefixOf l then
    let l2 := if ("</text>".toList).isSuffixOf l then pySlice 27 7 l
              else l.drop 27
    if l2.isEmpty then .cont d else appendBody d l2
  else if ("</text>".toList).isSuffixOf l then
    let l2 := pySlice 0 7 l
    if l2.isEmpty then .cont d else appendBody d l2
  else if l.head? = some '<' then .cont d
  else if l.head? = some '=' then
    appendBody d ("==".toList ++ pyStripChars ['=', ' '] l ++ "==".toList)
  else appendBody d l

/-- The `extract_raw_document` loop over a list of page lines. -/
def extractRun (cfg : Config) :
    AnnotatedWikiDocument → List Str → ExOut
  | d, [] => .cont d
  | d, l :: rest =>
    match extractStep cfg d l with
    | .halt r => .halt r
    | .cont d2 => extractRun cfg d2 rest

/-- `extract_raw_document` (with `quote=False`, as called by
`process_page`). -/
def extract_raw_document (cfg : Config) (page : List Str) :
    Except Unit (Option AnnotatedWikiDocument) :=
  match extractRun cfg emptyDoc page with
  | .halt r => r
  | .cont d => .ok (some d)

/-- Result of `__compact`: `None` (insufficient content), a redirect (the
document text is replaced by the redirect line and the function returns
immediately), or the collected page lines (joined with newlines by the
caller). -/
inductive CompactRes where
  | redirectLine (line : Str)
  | pageLines (lines : List Str)
  | rejected
deriving DecidableEq

/-- Terminal punctuation of titles in `__compact`
(`if title and title[-1] not in '!?': title += '.'`). -/
def titlePunct (t : Str) : Str :=
  match t.getLast? with
  | some c => if ¬ (c = '!' ∨ c = '?') then t ++ ['.'] else t
  | none => t

/-- The action the `__compact` loop body takes for one line. -/
inductive CompactAct where
  | skipLine
  | setPage (t : Str)
  | setPar (t : Str)
  | haltRedirect (l : Str)
  | keepLine (l : Str)
deriving DecidableEq

/-- The if/elif chain of the `__compact` loop body, for one raw line.
In the `*`, `#`, `:`, `;` and table-remnant branches the source either
`continue`s (drop configured) or rebinds `line` to its stripped form — but
the if/elif chain then ends and the loop body has no further statement, so
the stripped line is never appended either; both configurations drop the
line, and the embedded branches reflect that. -/
def compactStep (cfg : Config) (l0 : Str) : CompactAct :=
  let line := pyStrip l0
  if line.isEmpty then .skipLine
  else if ("++".toList).isPrefixOf line then
    .setPage (titlePunct (pySlice 2 2 line))
  else if ("==".toList).isPrefixOf line then
    .setPar (titlePunct (pySlice 2 2 line))
  else if lowerStr (line.take 9) = "#redirect".toList then
    .haltRedirect line
  else if line.head? = some '*' then .skipLine
  else if line.head? = some '#' then .skipLine
  else if line.head? = some ':' then .skipLine
  else if line.head? = some ';' then .skipLine
  else if line.head? = some lbr ∨ line.head? = some pipeC then .skipLine
  else if (pyStripChars (".- ".toList) line).isEmpty then .skipLine
  else if ¬ containsChar '_' line ∧ (pyWords line).length < 6 then .skipLine
  else .keepLine line

/-- The `__compact` line loop with accumulators `page` and `paragraph`:
a page-title line resets the page, a section-title line flushes the
paragraph buffer (only when it holds more than one line) and restarts it,
a redirect line halts, and a kept line goes to the page when no paragraph
has started, else to the paragraph. -/
def compactLoop (cfg : Config) :
    List Str → List Str → List Str → CompactRes
  | page, par, [] =>
    if 1 < par.length then .pageLines (page ++ par)
    else if page.length = 1 then .rejected
    else .pageLines page
  | page, par, l0 :: rest =>
    match compactStep cfg l0 with
    | .skipLine => compactLoop cfg page par rest
    | .setPage t => compactLoop cfg [t] par rest
    | .setPar t =>
      compactLoop cfg (if 1 < par.length then page ++ par else page) [t] rest
    | .haltRedirect l => .redirectLine l
    | .keepLine l =>
      if par.length = 0 then compactLoop cfg (page ++ [l]) par rest
      else compactLoop cfg page (par ++ [l]) rest

/-- `__compact` on the document text. -/
def compact (cfg : Config) (text : Str) : CompactRes :=
  compactLoop cfg [] [] (splitOnChar (Char.ofNat 10) text)

/-- Newline join of the collected page lines (`chr(10).join(page)`). -/
def joinLines (ls : List Str) : Str := List.intercalate [Char.ofNat 10] ls

/-- `urllib.parse.quote("#")`, the URL-encoded fragment delimiter the
annotation loop of `process_document` tests for. -/
def q23 : Str := "%23".toList

/-- The anchor matches of a text, with start offsets
(the `re.finditer` call of `process_document`). -/
def findAnchors (s : Str) : List (Nat × (Str × Str)) :=
  collectAllPos matchAnchor s

/-- The annotation loop of `process_document` over the anchor matches:
record `{uri, surface_form, offset = start - delta}` unless the uri
contains `quote("#")` (and anchors are not kept); every match, recorded or
not, adds `len(group(0)) - len(group(2))` to the running delta. -/
def annsLoop (keep : Bool) : Int → List (Nat × (Str × Str)) → List Ann
  | _, [] => []
  | delta, (st, us) :: ms =>
    let rest := annsLoop keep
      (delta + (((9 + us.1.length + 2 + us.2.length + 4) - us.2.length : Nat) : Int)) ms
    if containsSub q23 us.1 = false ∨ keep then
      { uri := us.1, surface_form := us.2, offset := (st : Int) - delta } :: rest
    else rest

/-- The substitution matcher of the `re.sub` call of `process_document`:
each anchor marker is replaced by its group 2 (the surface form). -/
def anchorSubMatcher (t : Str) : Option (Nat × Str) :=
  match matchAnchor t with
  | some ka => some (ka.1, ka.2.2)
  | none => none

/-- The anchor-replacement step of `process_document`. -/
def subAnchors (s : Str) : Str := subAll anchorSubMatcher s

/-- `process_document`: clean, compact, then resolve anchors into
annotations and final text.  A `None` text (no title line was ever seen)
makes `__clean` raise, embedded as `.error`. -/
def process_document (cfg : Config) (d : AnnotatedWikiDocument) :
    Except Unit (Option AnnotatedWikiDocument) :=
  match d.text with
  | none => .error ()
  | some t0 =>
    let tc := clean t0 d.categories
    match compact cfg tc.1 with
    | .rejected => .ok none
    | .redirectLine l =>
      .ok (some { d with text := some (subAnchors l)
                         annotations := annsLoop cfg.keep_anchors 0 (findAnchors l)
                         categories := tc.2 })
    | .pageLines ls =>
      let t2 := joinLines ls
      .ok (some { d with text := some (subAnchors t2)
                         annotations := annsLoop cfg.keep_anchors 0 (findAnchors t2)
                         categories := tc.2 })

/-- The classified output of `process_page` (the `data` dict): a redirect
line, a category-membership line set, or an article.  The serialized json
bytes of an article are abstracted as the document itself (no claim
inspects the serialization). -/
inductive Record where
  | redirect (url : Option Str) (target : Str)
  | categoryMembership (url : Option Str) (parents : List Str)
  | article (doc : AnnotatedWikiDocument)
deriving DecidableEq

/-- Whether a record is an article record. -/
def Record.isArticle : Record → Bool
  | .article _ => true
  | _ => false

/-- The canonical parent urls of the category set
(`list(get_wiki_document_url(c, prefix) for c in categories)`); an empty
category name would raise inside the generator. -/
def mapUrls (base : Str) : List Str → Except Unit (List Str)
  | [] => .ok []
  | c :: cs =>
    match get_wiki_document_url c base with
    | none => .error ()
    | some u => (mapUrls base cs).map (fun us => u :: us)

/-- The record-building tail of `process_page` on the processed document:
redirect pages map to a Redirect (or are dropped when no annotation was
found), category-titled pages to a CategoryMembership over the canonical
parent urls, everything else to an Article. -/
def classifyDoc (cfg : Config) (d : AnnotatedWikiDocument) :
    Except Unit (Option Record) :=
  match d.text with
  | none => .error ()
  | some t =>
    if is_redirect t then
      match d.annotations with
      | [] => .ok none
      | a :: _ =>
        match get_wiki_document_url a.uri cfg.base_url with
        | none => .error ()
        | some u => .ok (some (.redirect d.url u))
    else
      match d.title with
      | none => .error ()
      | some ti =>
        if is_category_page ti then
          match mapUrls cfg.base_url d.categories with
          | .error e => .error e
          | .ok us => .ok (some (.categoryMembership d.url us))
        else .ok (some (.article d))

/-- `process_page`: extract, transform, classify.  `.ok none` is a
silently dropped page; `.error` is a raised exception. -/
def process_page (cfg : Config) (page : List Str) :
    Except Unit (Option Record) :=
  match extract_raw_document cfg page with
  | .error e => .error e
  | .ok none => .ok none
  | .ok (some d) =>
    match process_document cfg d with
    | .error e => .error e
    | .ok none => .ok none
    | .ok (some d2) => classifyDoc cfg d2

/-!  The `OutputSplitter` shard state machine.  Only the shard-relevant
state is modelled (`__dir_index`, `__file_index`, `__cur_file_size`,
`__line_number`); the side files (`index.tsv`, `categories.tsv`,
`redirects.tsv`) only append lines and never touch this state, and
category/redirect records return from `write` before the shard logic. -/

/-- The `OutputSplitter` shard state. -/
structure WriterState where
  dir_index : Int
  file_index : Int
  cur_file_size : Nat
  line_number : Nat
deriving DecidableEq

/-- `__open_next_file` (state part): increment the file index; at 100,
move to the next directory and reset the file index to 0. -/
def open_next_file (st : WriterState) : WriterState :=
  let fi := st.file_index + 1
  if fi = 100 then { st with dir_index := st.dir_index + 1, file_index := 0 }
  else { st with file_index := fi }

/-- The field values set by `__init__` before it calls
`__open_next_file`. -/
def writerPreInit : WriterState :=
  { dir_index := 0, file_index := -1, cur_file_size := 0, line_number := 0 }

/-- The state after `__init__` (which opens the first file). -/
def writerInit : WriterState := open_next_file writerPreInit

/-- The `write` path for an article record of serialized byte length
`text_len`.  The source guard is `cur_file_size + text_len / 2 >
max_file_size` with Python float division; for the integer magnitudes
involved the halving and the sum are exact, so the guard is embedded as
the exact comparison `2*cur + len > 2*max`.  On rotation the counters are
reset and then the write is accounted: `cur = text_len`,
`line_number = 1`.  Note the accounting adds the full `text_len` while
the guard adds only half of the incoming length. -/
def write_article (max_file_size : Nat) (st : WriterState) (text_len : Nat) :
    WriterState :=
  if 2 * st.cur_file_size + text_len > 2 * max_file_size then
    let st2 := open_next_file st
    { st2 with cur_file_size := 0 + text_len, line_number := 0 + 1 }
  else
    { st with cur_file_size := st.cur_file_size + text_len
              line_number := st.line_number + 1 }

/-- Decidable equality for `Except` results (used to evaluate concrete
pipeline runs inside proofs). -/
instance exceptDecEq {ε α : Type} [DecidableEq ε] [DecidableEq α] :
    DecidableEq (Except ε α)
  | .error e, .error f =>
    if h : e = f then .isTrue (by rw [h])
    else .isFalse (by intro hc; cases hc; exact h rfl)
  | .error _, .ok _ => .isFalse (by intro hc; cases hc)
  | .ok _, .error _ => .isFalse (by intro hc; cases hc)
  | .ok a, .ok b =>
    if h : a = b then .isTrue (by rw [h])
    else .isFalse (by intro hc; cases hc; exact h rfl)

/-!  Generic lemmas about the scanning combinators. -/

theorem goSub_eq_self (m : Str → Option (Nat × Str)) :
    ∀ (s : Str) (fuel : Nat), (∀ t, t ≠ [] → t <:+ s → m t = none) →
      goSub m fuel s = s := by
  intro s
  induction s with
  | nil => intro fuel _; cases fuel <;> rfl
  | cons c cs ih =>
    intro fuel h
    cases fuel with
    | zero => rfl
    | succ fuel =>
      have hm : m (c :: cs) = none := h _ (by simp) (List.suffix_refl _)
      simp only [goSub, hm]
      rw [ih fuel (fun t ht hs => h t ht (hs.trans (List.suffix_cons c cs)))]

theorem goCollect_eq_nil {α : Type} (m : Str → Option (Nat × α)) :
    ∀ (s : Str) (fuel : Nat), (∀ t, t ≠ [] → t <:+ s → m t = none) →
      goCollect m fuel s = [] := by
  intro s
  induction s with
  | nil => intro fuel _; cases fuel <;> rfl
  | cons c cs ih =>
    intro fuel h
    cases fuel with
    | zero => rfl
    | succ fuel =>
      have hm : m (c :: cs) = none := h _ (by simp) (List.suffix_refl _)
      simp only [goCollect, hm]
      exact ih fuel (fun t ht hs => h t ht (hs.trans (List.suffix_cons c cs)))

theorem goCollectPos_eq_nil {α : Type} (m : Str → Option (Nat × α)) :
    ∀ (s : Str) (fuel pos : Nat), (∀ t, t ≠ [] → t <:+ s → m t = none) →
      goCollectPos m fuel pos s = [] := by
  intro s
  induction s with
  | nil => intro fuel pos _; cases fuel <;> rfl
  | cons c cs ih =>
    intro fuel pos h
    cases fuel with
    | zero => rfl
    | succ fuel =>
      have hm : m (c :: cs) = none := h _ (by simp) (List.suffix_refl _)
      simp only [goCollectPos, hm]
      exact ih fuel (pos + 1) (fun t ht hs => h t ht (hs.trans (List.suffix_cons c cs)))

theorem goSub_append (m : Str → Option (Nat × Str)) :
    ∀ (pre rest : Str) (fuel : Nat),
      (∀ i, i < pre.length → m (pre.drop i ++ rest) = none) →
      goSub m (pre.length + fuel) (pre ++ rest) = pre ++ goSub m fuel rest := by
  intro pre
  induction pre with
  | nil => intro rest fuel _; simp
  | cons c p ih =>
    intro rest fuel h
    have hm : m (c :: (p ++ rest)) = none := by
      have := h 0 (by simp)
      simpa using this
    have hlen : (c :: p).length + fuel = (p.length + fuel) + 1 := by
      simp [Nat.add_comm, Nat.add_assoc, Nat.add_left_comm]
    rw [List.cons_append, hlen]
    simp only [goSub, hm]
    rw [ih rest fuel (fun i hi => by simpa using h (i + 1) (by simpa using hi))]
    simp

theorem goCollect_append {α : Type} (m : Str → Option (Nat × α)) :
    ∀ (pre rest : Str) (fuel : Nat),
      (∀ i, i < pre.length → m (pre.drop i ++ rest) = none) →
      goCollect m (pre.length + fuel) (pre ++ rest) = goCollect m fuel rest := by
  intro pre
  induction pre with
  | nil => intro rest fuel _; simp
  | cons c p ih =>
    intro rest fuel h
    have hm : m (c :: (p ++ rest)) = none := by
      have := h 0 (by simp)
      simpa using this
    have hlen : (c :: p).length + fuel = (p.length + fuel) + 1 := by
      simp [Nat.add_comm, Nat.add_assoc, Nat.add_left_comm]
    rw [List.cons_append, hlen]
    simp only [goCollect, hm]
    exact ih rest fuel (fun i hi => by simpa using h (i + 1) (by simpa using hi))

theorem goSub_cons_some (m : Str → Option (Nat × Str)) (c : Char) (cs : Str)
    (fuel k : Nat) (r : Str) (hm : m (c :: cs) = some (k, r)) (hk : k ≠ 0) :
    goSub m (fuel + 1) (c :: cs) = r ++ goSub m fuel ((c :: cs).drop k) := by
  simp [goSub, hm, hk]

theorem goCollect_cons_some {α : Type} (m : Str → Option (Nat × α)) (c : Char)
    (cs : Str) (fuel k : Nat) (a : α) (hm : m (c :: cs) = some (k, a))
    (hk : k ≠ 0) :
    goCollect m (fuel + 1) (c :: cs) = a :: goCollect m fuel ((c :: cs).drop k) := by
  simp [goCollect, hm, hk]

theorem containsSub_suffix_not_isPrefixOf {p s t : Str}
    (h : containsSub p s = false) (hs : t <:+ s) (ht : t ≠ []) :
    p.isPrefixOf t = false := by
  induction s with
  | nil =>
    rcases List.suffix_nil.mp hs with rfl
    exact absurd rfl ht
  | cons c cs ih =>
    simp only [containsSub, Bool.or_eq_false_iff] at h
    rcases (List.suffix_cons_iff.mp hs) with rfl | hs2
    · exact h.1
    · exact ih h.2 hs2

theorem containsSub_eq_false_of_head {p s : Str} {a : Char}
    (hp : p.head? = some a) (ha : containsChar a s = false) :
    containsSub p s = false := by
  induction s with
  | nil =>
    cases p with
    | nil => simp at hp
    | cons q qs => simp [containsSub]
  | cons c cs ih =>
    have ha2 : containsChar a cs = false := by
      simp only [containsChar, List.contains_cons, Bool.or_eq_false_iff] at ha
      exact ha.2
    have hac : ¬ c = a := by
      simp only [containsChar, List.contains_cons, Bool.or_eq_false_iff] at ha
      intro hc
      rw [hc] at ha
      simp at ha
    cases p with
    | nil => simp at hp
    | cons q qs =>
      have hq : q = a := by simpa using hp
      subst hq
      simp only [containsSub, Bool.or_eq_false_iff]
      refine ⟨?_, ih ha2⟩
      cases hqc : (q == c) with
      | false => simp only [List.isPrefixOf, hqc, Bool.false_and]
      | true =>
        have hae : q = c := by simpa using hqc
        exact absurd hae.symm hac

theorem replaceAll_eq_self {p s : Str} (r : Str)
    (h : containsSub p s = false) : replaceAll p r s = s := by
  apply goSub_eq_self
  intro t ht hs
  have := containsSub_suffix_not_isPrefixOf h hs ht
  simp [this]

/-!  Claim C3: the shard rotation and directory numbering of
`OutputSplitter`. -/

/-- Closed form of the shard state after the (n+1)-st file open: the n-th
file (0-based) lives in directory `n / 100` at file index `n % 100`. -/
theorem open_next_file_iterate (n : Nat) :
    (open_next_file^[n + 1] writerPreInit).dir_index = ((n / 100 : Nat) : Int) ∧
    (open_next_file^[n + 1] writerPreInit).file_index = ((n % 100 : Nat) : Int) := by
  induction n with
  | zero => constructor <;> rfl
  | succ n ih =>
    rw [Function.iterate_succ_apply']
    rcases ih with ⟨hd, hf⟩
    by_cases h100 : n % 100 = 99
    · have hfi : (open_next_file^[n + 1] writerPreInit).file_index + 1 = 100 := by
        rw [hf, h100]
        norm_num
      simp only [open_next_file, hfi, if_pos rfl]
      constructor
      · simp only [hd]
        have : (n + 1) / 100 = n / 100 + 1 := by omega
        rw [this]
        push_cast
        ring
      · have : (n + 1) % 100 = 0 := by omega
        simp [this]
    · have hfi : ¬ (open_next_file^[n + 1] writerPreInit).file_index + 1 = 100 := by
        rw [hf]
        intro hcon
        have : (n % 100) + 1 = 100 := by exact_mod_cast hcon
        omega
      simp only [open_next_file, if_neg hfi]
      constructor
      · simp only [hd]
        have : (n + 1) / 100 = n / 100 := by omega
        rw [this]
      · rw [hf]
        have : (n + 1) % 100 = n % 100 + 1 := by omega
        rw [this]
        push_cast
        ring

/-- Counterexample to claim C3 as stated: with `max_file_size = 10`,
writing articles of lengths 4 and then 12 leaves a cumulative shard size
of 16, past the configured maximum, without a new shard file having been
opened (the file index is unchanged), because the guard only charges half
of the incoming write (`4 + 12/2 = 10 ≤ 10`). -/
theorem claim3_counterexample :
    (write_article 10 (write_article 10 writerInit 4) 12).cur_file_size = 16 ∧
    10 < (write_article 10 (write_article 10 writerInit 4) 12).cur_file_size ∧
    (write_article 10 (write_article 10 writerInit 4) 12).file_index =
      writerInit.file_index ∧
    (write_article 10 (write_article 10 writerInit 4) 12).dir_index =
      writerInit.dir_index := by
  decide

/-- Claim C3 (amended): a new shard file is opened exactly before a write
`L` with `cur + L/2 > max` (where `cur` accumulates the full byte lengths
written to the current shard); in particular once the cumulative
half-byte-lengths of the current shard exceed the configured maximum
(`cur/2 > max`), the next article write opens a new shard file; and a new
directory is opened exactly every 100th shard file, with directories and
files numbered sequentially (file n lives in directory `n / 100` at index
`n % 100`). -/
theorem claim3_theorem :
    (∀ (max_file_size : Nat) (st : WriterState) (text_len : Nat),
       2 * st.cur_file_size + text_len ≤ 2 * max_file_size →
         write_article max_file_size st text_len =
           { st with cur_file_size := st.cur_file_size + text_len
                     line_number := st.line_number + 1 }) ∧
    (∀ (max_file_size : Nat) (st : WriterState) (text_len : Nat),
       2 * max_file_size < 2 * st.cur_file_size + text_len →
         write_article max_file_size st text_len =
           { open_next_file st with cur_file_size := text_len
                                    line_number := 1 }) ∧
    (∀ (max_file_size : Nat) (st : WriterState) (text_len : Nat),
       2 * max_file_size < st.cur_file_size →
         write_article max_file_size st text_len =
           { open_next_file st with cur_file_size := text_len
                                    line_number := 1 }) ∧
    (∀ n : Nat,
       (open_next_file^[n + 1] writerPreInit).dir_index = ((n / 100 : Nat) : Int) ∧
       (open_next_file^[n + 1] writerPreInit).file_index = ((n % 100 : Nat) : Int)) ∧
    (∀ n : Nat,
       (open_next_file^[n + 2] writerPreInit).dir_index =
         (open_next_file^[n + 1] writerPreInit).dir_index +
           (if (n + 1) % 100 = 0 then 1 else 0)) := by
  refine ⟨?_, ?_, ?_, open_next_file_iterate, ?_⟩
  · intro maxsz st len h
    have hg : ¬ (2 * st.cur_file_size + len > 2 * maxsz) := by omega
    simp only [write_article, if_neg hg]
  · intro maxsz st len h
    have hg : 2 * st.cur_file_size + len > 2 * maxsz := by omega
    simp only [write_article, if_pos hg]
    simp
  · intro maxsz st len h
    have hg : 2 * st.cur_file_size + len > 2 * maxsz := by omega
    simp only [write_article, if_pos hg]
    simp
  · intro n
    have h1 := open_next_file_iterate n
    have h2 := open_next_file_iterate (n + 1)
    rw [h2.1, h1.1]
    by_cases h100 : (n + 1) % 100 = 0
    · have : (n + 1) / 100 = n / 100 + 1 := by omega
      rw [this, if_pos h100]
      push_cast
      ring
    · have : (n + 1) / 100 = n / 100 := by omega
      rw [this, if_neg h100]
      ring

/-- Witness for the amended claim C3 at concrete inputs. -/
theorem claim3_witness :
    write_article 10 writerInit 4 =
      { writerInit with cur_file_size := writerInit.cur_file_size + 4
                        line_number := writerInit.line_number + 1 } ∧
    write_article 10 ⟨0, 0, 16, 2⟩ 4 =
      { open_next_file ⟨0, 0, 16, 2⟩ with cur_file_size := 4
                                          line_number := 1 } ∧
    write_article 10 ⟨0, 0, 30, 2⟩ 1 =
      { open_next_file ⟨0, 0, 30, 2⟩ with cur_file_size := 1
                                          line_number := 1 } ∧
    ((open_next_file^[250 + 1] writerPreInit).dir_index = ((250 / 100 : Nat) : Int) ∧
     (open_next_file^[250 + 1] writerPreInit).file_index = ((250 % 100 : Nat) : Int)) ∧
    (open_next_file^[199 + 2] writerPreInit).dir_index =
      (open_next_file^[199 + 1] writerPreInit).dir_index +
        (if (199 + 1) % 100 = 0 then 1 else 0) :=
  ⟨claim3_theorem.1 10 writerInit 4 (by decide),
   claim3_theorem.2.1 10 ⟨0, 0, 16, 2⟩ 4 (by decide),
   claim3_theorem.2.2.1 10 ⟨0, 0, 30, 2⟩ 1 (by decide),
   claim3_theorem.2.2.2.1 250,
   claim3_theorem.2.2.2.2 199⟩

/-!  Claim C6: the finalization of `__compact`. -/

/-- The `__compact` loop never returns a one-line page: with a paragraph
buffer of more than one line the flushed page has at least two lines, and
otherwise a one-line page returns `None` (`rejected`). -/
theorem compactLoop_no_single_line (cfg : Config) :
    ∀ (lines page par : List Str) (ls : List Str),
      compactLoop cfg page par lines = .pageLines ls → ls.length ≠ 1 := by
  intro lines
  induction lines with
  | nil =>
    intro page par ls h hlen
    unfold compactLoop at h
    split at h
    · rename_i hpar
      cases h
      simp only [List.length_append] at hlen
      omega
    · split at h
      · cases h
      · rename_i hpar hpage
        cases h
        exact hpage hlen
  | cons l0 rest ih =>
    intro page par ls h
    cases hact : compactStep cfg l0 <;> simp only [compactLoop, hact] at h
    · exact ih _ _ _ h
    · exact ih _ _ _ h
    · exact ih _ _ _ h
    · cases h
    · split at h
      · exact ih _ _ _ h
      · exact ih _ _ _ h

/-- Claim C6: at finalization the trailing paragraph buffer is flushed
into the page only if it holds more than one line (with at most one line
it is dropped and the result depends only on the page), a paragraph of
more than one line is flushed whole, and a finished page of exactly one
line is never returned — `__compact` signals `None` instead. -/
theorem claim6_theorem :
    (∀ (cfg : Config) (page par : List Str), par.length ≤ 1 →
       compactLoop cfg page par [] =
         if page.length = 1 then CompactRes.rejected
         else CompactRes.pageLines page) ∧
    (∀ (cfg : Config) (page par : List Str), 1 < par.length →
       compactLoop cfg page par [] = CompactRes.pageLines (page ++ par)) ∧
    (∀ (cfg : Config) (text : Str) (ls : List Str),
       compact cfg text = CompactRes.pageLines ls → ls.length ≠ 1) := by
  refine ⟨?_, ?_, ?_⟩
  · intro cfg page par hpar
    have hno : ¬ 1 < par.length := by omega
    simp only [compactLoop, if_neg hno]
  · intro cfg page par hpar
    simp only [compactLoop, if_pos hpar]
  · intro cfg text ls h
    exact compactLoop_no_single_line cfg _ [] [] ls h

/-- Witness for claim C6 at concrete inputs: a one-line paragraph buffer
is dropped (and a one-line page rejected), a two-line buffer is flushed,
and a concrete compacted text is two lines, not one. -/
theorem claim6_witness :
    (compactLoop defaultConfig ["t.".toList] ["x".toList] [] =
       if (["t.".toList] : List Str).length = 1 then CompactRes.rejected
       else CompactRes.pageLines ["t.".toList]) ∧
    (compactLoop defaultConfig ["t.".toList] ["h.".toList, "x".toList] [] =
       CompactRes.pageLines ["t.".toList, "h.".toList, "x".toList]) ∧
    (("t.".toList :: "Alpha beta gamma delta epsilon zeta".toList :: []).length ≠ 1) :=
  ⟨claim6_theorem.1 defaultConfig ["t.".toList] ["x".toList] (by decide),
   claim6_theorem.2.1 defaultConfig ["t.".toList] ["h.".toList, "x".toList]
     (by decide),
   claim6_theorem.2.2 defaultConfig
     ("++t++".toList ++ [Char.ofNat 10] ++ "Alpha beta gamma delta epsilon zeta".toList)
     ("t.".toList :: "Alpha beta gamma delta epsilon zeta".toList :: []) (by decide)⟩

/-!  Claim C10: `get_wiki_document_url` on empty and non-empty titles. -/

/-- Replacing spaces by underscores in a non-empty string yields a
non-empty string. -/
theorem replaceAll_space_ne_nil (t : Str) (ht : t ≠ []) :
    replaceAll [' '] ['_'] t ≠ [] := by
  cases t with
  | nil => exact absurd rfl ht
  | cons c cs =>
    unfold replaceAll subAll
    by_cases hp : ([' '] : Str).isPrefixOf (c :: cs) = true
    · simp [goSub, hp]
    · simp [goSub, hp]

/-- A partial-run lemma: the `extract_raw_document` loop over an appended
line list runs the first part and, unless it halted, continues with the
second. -/
theorem extractRun_append (cfg : Config) :
    ∀ (xs ys : List Str) (d : AnnotatedWikiDocument),
      extractRun cfg d (xs ++ ys) =
        match extractRun cfg d xs with
        | .halt r => .halt r
        | .cont d2 => extractRun cfg d2 ys := by
  intro xs
  induction xs with
  | nil => intro ys d; rfl
  | cons x xs ih =>
    intro ys d
    show extractRun cfg d (x :: (xs ++ ys)) = _
    simp only [extractRun]
    cases extractStep cfg d x with
    | halt r => rfl
    | cont d2 => exact ih ys d2

/-- Claim C10: canonical url derivation is only defined for non-empty
titles.  On the empty title the first-character indexing raises, embedded
as `none`; on a non-empty title the result is the base url followed by
the space-to-underscore form with its first character upper-cased; and a
page record carrying an empty title line makes `extract_raw_document`
(and hence `process_page`) raise rather than filter: whenever the title
branch is taken with an empty title the loop halts with an error. -/
theorem claim10_theorem :
    (∀ base : Str, get_wiki_document_url [] base = none) ∧
    (∀ (t base : Str), t ≠ [] →
       ∃ c cs, replaceAll [' '] ['_'] t = c :: cs ∧
         get_wiki_document_url t base = some (base ++ pyUpperChar c :: cs)) ∧
    (∀ (cfg : Config) (d : AnnotatedWikiDocument), urlUnset d = true →
       extractStep cfg d ("<title></title>".toList) = .halt (.error ())) ∧
    (process_page defaultConfig ["<title></title>".toList] =
       .error ()) := by
  refine ⟨?_, ?_, ?_, by decide⟩
  · intro base; rfl
  · intro t base ht
    obtain ⟨c, cs, hcc⟩ :=
      List.exists_cons_of_ne_nil (replaceAll_space_ne_nil t ht)
    exact ⟨c, cs, hcc, by simp [get_wiki_document_url, hcc]⟩
  · intro cfg d h
    unfold extractStep
    rw [if_neg (by decide)]
    rw [if_neg (by rintro ⟨-, h2, -⟩; simp [List.isPrefixOf] at h2)]
    rw [if_pos ⟨h, by decide, by decide⟩]
    rfl

/-- Witness for claim C10 at concrete inputs. -/
theorem claim10_witness :
    get_wiki_document_url [] "w/".toList = none ∧
    (∃ c cs, replaceAll [' '] ['_'] ("ab c".toList) = c :: cs ∧
       get_wiki_document_url ("ab c".toList) ("w/".toList) =
         some ("w/".toList ++ pyUpperChar c :: cs)) ∧
    extractStep defaultConfig emptyDoc ("<title></title>".toList) =
      .halt (.error ()) :=
  ⟨claim10_theorem.1 ("w/".toList),
   claim10_theorem.2.1 ("ab c".toList) ("w/".toList) (by decide),
   claim10_theorem.2.2.1 defaultConfig emptyDoc (by decide)⟩

/-!  Claim C8: namespace-excluded titles are silently dropped. -/

/-- Claim C8: for every page whose (first) title line carries a title
matching one of the excluded namespace `__garbage_page_prefixes`
(case-sensitive, prefix match, after `&amp;` decoding), and whose lines
before the title line process without halting and without having set a
url, `process_page` returns no record and raises no error: the page is
silently dropped at the title line, whatever follows it. -/
theorem claim8_theorem :
    ∀ (cfg : Config) (pre post : List Str) (t : Str)
      (d : AnnotatedWikiDocument),
      extractRun cfg emptyDoc pre = .cont d →
      urlUnset d = true →
      reject_page (replaceAll ("&amp;".toList) ['&'] t) = true →
      process_page cfg
        (pre ++ ("<title>".toList ++ t ++ "</title>".toList) :: post) =
        .ok none := by
  intro cfg pre post t d hpre hurl hrej
  have hstep : extractStep cfg d ("<title>".toList ++ t ++ "</title>".toList) =
      .halt (.ok none) := by
    have hpref : ("<title>".toList : Str).isPrefixOf
        ("<title>".toList ++ t ++ "</title>".toList) = true := by
      rw [List.isPrefixOf_iff_prefix, List.append_assoc]
      exact List.prefix_append _ _
    have hsuf : ("</title>".toList : Str).isSuffixOf
        ("<title>".toList ++ t ++ "</title>".toList) = true := by
      rw [List.isSuffixOf_iff_suffix]
      exact List.suffix_append _ _
    have hsl : pySlice 7 8 ("<title>".toList ++ t ++ "</title>".toList) = t := by
      have h7 : ("<title>".toList : Str).length = 7 := by decide
      have h8 : ("</title>".toList : Str).length = 8 := by decide
      simp only [pySlice, List.length_append, h7, h8]
      rw [show ("<title>".toList ++ t ++ "</title>".toList).drop 7 =
            t ++ "</title>".toList by
          rw [List.append_assoc, ← h7, List.drop_left]]
      exact List.take_left' (by omega)
    unfold extractStep
    rw [if_neg (by simp)]
    rw [if_neg (by rintro ⟨-, h2, -⟩; simp [List.isPrefixOf] at h2)]
    rw [if_pos ⟨hurl, hpref, hsuf⟩]
    rw [hsl, if_pos hrej]
  have hrun : extractRun cfg emptyDoc
      (pre ++ ("<title>".toList ++ t ++ "</title>".toList) :: post) =
      .halt (.ok none) := by
    rw [extractRun_append, hpre]
    show (match extractStep cfg d ("<title>".toList ++ t ++ "</title>".toList) with
          | .halt r => ExOut.halt r
          | .cont d2 => extractRun cfg d2 post) = _
    rw [hstep]
  unfold process_page extract_raw_document
  rw [hrun]

/-- Witness for claim C8: a one-line page with a `Template:` title is
silently dropped. -/
theorem claim8_witness :
    process_page defaultConfig
      ([] ++ ("<title>".toList ++ "Template:Foo".toList ++ "</title>".toList) :: []) =
      .ok none :=
  claim8_theorem defaultConfig [] [] ("Template:Foo".toList) emptyDoc rfl
    (by decide) (by decide)

/-!  Claim C1: category-titled pages. -/

/-- The field-preservation of `process_document`: the survived document
keeps the title and url and has a (non-`None`) text. -/
theorem process_document_fields (cfg : Config)
    (d d2 : AnnotatedWikiDocument)
    (h : process_document cfg d = .ok (some d2)) :
    d2.title = d.title ∧ d2.url = d.url ∧ ∃ t2, d2.text = some t2 := by
  unfold process_document at h
  cases hdt : d.text with
  | none =>
    rw [hdt] at h
    exact absurd h (by simp)
  | some t0 =>
    rw [hdt] at h
    dsimp only [] at h
    cases hcp : compact cfg (clean t0 d.categories).1 with
    | rejected =>
      rw [hcp] at h
      exact absurd h (by simp)
    | redirectLine l =>
      rw [hcp] at h
      dsimp only [] at h
      injection h with h1
      injection h1 with h2
      subst h2
      exact ⟨rfl, rfl, _, rfl⟩
    | pageLines ls =>
      rw [hcp] at h
      dsimp only [] at h
      injection h with h1
      injection h1 with h2
      subst h2
      exact ⟨rfl, rfl, _, rfl⟩

/-- The minimal category page of the claim: title `Category:X`, body
exactly `[[Category:Y]]`. -/
def c1page : List Str :=
  [("<title>Category:X</title>".toList),
   ("<text xml:space=".toList ++ [dq] ++ "preserve".toList ++
     [dq, Char.ofNat 62] ++ "[[Category:Y]]</text>".toList)]

/-- The same category page with one six-token body line added, which
survives compaction. -/
def c1wpage : List Str :=
  [("<title>Category:X</title>".toList),
   ("<text xml:space=".toList ++ [dq] ++ "preserve".toList ++
     [dq, Char.ofNat 62] ++ "[[Category:Y]]</text>".toList),
   ("Alpha beta gamma delta epsilon zeta eta.".toList)]

set_option maxRecDepth 40000 in
/-- Counterexample to claim C1 as stated: the page titled `Category:X`
whose body contains (exactly) `[[Category:Y]]` produces NO record at all —
the category link is resolved to an empty anchor, the page compacts to the
single lead sentence, and `__compact` rejects it — rather than exactly one
CategoryMembership record. -/
theorem claim1_counterexample :
    is_category_page ("Category:X".toList) = true ∧
    process_page defaultConfig c1page = .ok none := by
  constructor
  · decide
  · decide

/-- Claim C1 (amended): for every input page whose extracted title starts
(case-insensitively) with the category namespace prefix, `process_page`
produces at most one record and never an Article record; and whenever it
produces a record and the compacted final text is not a redirect, that
record is exactly one CategoryMembership whose parents are the
canonicalized category set.  (The original claim's "exactly one
CategoryMembership" fails: a category page whose body does not survive
compaction produces no record at all.) -/
theorem claim1_theorem :
    ∀ (cfg : Config) (page : List Str) (d : AnnotatedWikiDocument)
      (t : Str) (r : Record),
      extract_raw_document cfg page = .ok (some d) →
      d.title = some t →
      is_category_page t = true →
      process_page cfg page = .ok (some r) →
      r.isArticle = false ∧
      (∀ (d2 : AnnotatedWikiDocument) (t2 : Str),
         process_document cfg d = .ok (some d2) → d2.text = some t2 →
         is_redirect t2 = false →
         ∃ us, mapUrls cfg.base_url d2.categories = .ok us ∧
           r = .categoryMembership d2.url us) := by
  intro cfg page d t r hex htitle hcat hpp
  unfold process_page at hpp
  rw [hex] at hpp
  dsimp only [] at hpp
  cases hpd : process_document cfg d with
  | error e =>
    rw [hpd] at hpp
    exact absurd hpp (by simp)
  | ok od =>
    cases od with
    | none =>
      rw [hpd] at hpp
      exact absurd hpp (by simp)
    | some d2 =>
      rw [hpd] at hpp
      dsimp only [] at hpp
      obtain ⟨ht2, -, t2, htext2⟩ := process_document_fields cfg d d2 hpd
      unfold classifyDoc at hpp
      rw [htext2] at hpp
      dsimp only [] at hpp
      by_cases hred : is_redirect t2 = true
      · rw [if_pos hred] at hpp
        cases hann : d2.annotations with
        | nil =>
          rw [hann] at hpp
          exact absurd hpp (by simp)
        | cons a rest =>
          rw [hann] at hpp
          dsimp only [] at hpp
          cases hu : get_wiki_document_url a.uri cfg.base_url with
          | none =>
            rw [hu] at hpp
            exact absurd hpp (by simp)
          | some u =>
            rw [hu] at hpp
            dsimp only [] at hpp
            injection hpp with hpp1
            injection hpp1 with hpp2
            subst hpp2
            refine ⟨rfl, ?_⟩
            intro d2x t2x hpdx htextx hredx
            injection hpdx with hx1
            injection hx1 with hx2
            subst hx2
            rw [htext2] at htextx
            injection htextx with hx3
            subst hx3
            rw [hred] at hredx
            cases hredx
      · rw [if_neg hred] at hpp
        rw [ht2, htitle] at hpp
        dsimp only [] at hpp
        rw [if_pos hcat] at hpp
        cases hus : mapUrls cfg.base_url d2.categories with
        | error e =>
          rw [hus] at hpp
          exact absurd hpp (by simp)
        | ok us =>
          rw [hus] at hpp
          dsimp only [] at hpp
          injection hpp with hpp1
          injection hpp1 with hpp2
          subst hpp2
          refine ⟨rfl, ?_⟩
          intro d2x t2x hpdx htextx hredx
          injection hpdx with hx1
          injection hx1 with hx2
          subst hx2
          exact ⟨us, hus, rfl⟩

set_option maxRecDepth 40000 in
/-- Witness for the amended claim C1: the category page with a surviving
body line yields exactly one CategoryMembership record (not an Article)
for the canonicalized category `Y`. -/
theorem claim1_witness :
    (Record.categoryMembership
       (some ("http://en.wikipedia.org/wiki/Category:X".toList))
       [("http://en.wikipedia.org/wiki/Category:Y".toList)]).isArticle = false :=
  (claim1_theorem defaultConfig c1wpage
    { id := none
      title := some ("Category:X".toList)
      url := some ("http://en.wikipedia.org/wiki/Category:X".toList)
      text := some ("++Category:X++".toList ++ [Char.ofNat 10] ++
        "[[Category:Y]]".toList ++ [Char.ofNat 10] ++
        "Alpha beta gamma delta epsilon zeta eta.".toList)
      annotations := []
      categories := [] }
    ("Category:X".toList)
    (Record.categoryMembership
      (some ("http://en.wikipedia.org/wiki/Category:X".toList))
      [("http://en.wikipedia.org/wiki/Category:Y".toList)])
    (by decide) (by decide) (by decide) (by decide)).1

/-!  Claim C5: redirect pages. -/

/-- The redirect page of the claim: sole body `#REDIRECT [[Target]]`. -/
def c5page : List Str :=
  [("<title>Alpha</title>".toList),
   ("<text xml:space=".toList ++ [dq] ++ "preserve".toList ++
     [dq, Char.ofNat 62] ++ "#REDIRECT [[Target]]</text>".toList)]

set_option maxRecDepth 40000 in
/-- Claim C5: the page whose sole body is `#REDIRECT [[Target]]` yields
exactly one Redirect record from the page's canonical url to `Target`'s
canonical url; and in general, on a processed document whose final text
starts (case-insensitively, after left-stripping) with the redirect
keyword, the classifier takes the first annotation's target if one
exists and otherwise drops the page. -/
theorem claim5_theorem :
    (process_page defaultConfig c5page =
       .ok (some (.redirect
         (some ("http://en.wikipedia.org/wiki/Alpha".toList))
         ("http://en.wikipedia.org/wiki/Target".toList)))) ∧
    (∀ (cfg : Config) (d : AnnotatedWikiDocument) (t : Str),
       d.text = some t → is_redirect t = true →
       (d.annotations = [] → classifyDoc cfg d = .ok none) ∧
       (∀ (a : Ann) (rest : List Ann) (u : Str),
          d.annotations = a :: rest →
          get_wiki_document_url a.uri cfg.base_url = some u →
          classifyDoc cfg d = .ok (some (.redirect d.url u)))) := by
  constructor
  · decide
  · intro cfg d t htext hred
    constructor
    · intro hann
      unfold classifyDoc
      rw [htext]
      dsimp only []
      rw [if_pos hred, hann]
    · intro a rest u hann hu
      unfold classifyDoc
      rw [htext]
      dsimp only []
      rw [if_pos hred, hann]
      dsimp only []
      rw [hu]

/-!  Claims C2 and C4: the annotation loop of `process_document`. -/

/-- The length of the anchor marker `<a href="URI">SF</a>` of a match
(`len(m.group(0))`). -/
def markerLen (us : Str × Str) : Nat :=
  9 + us.1.length + 2 + us.2.length + 4

/-- Shape of an anchor match: the match length is the marker length of
its payload, the surface form is non-empty, and the match fits inside the
subject. -/
theorem matchAnchor_shape {t : Str} {k : Nat} {us : Str × Str}
    (h : matchAnchor t = some (k, us)) :
    k = markerLen us ∧ us.2 ≠ [] ∧ k ≤ t.length := by
  unfold matchAnchor at h
  by_cases hpre : ahrefLit.isPrefixOf t = true
  · rw [if_pos hpre] at h
    try dsimp only [] at h
    by_cases hun : (t.drop 9).takeWhile (fun c => c ≠ dq) = []
    · rw [if_pos hun] at h
      cases h
    · rw [if_neg hun] at h
      cases hdrop : (t.drop 9).drop
          ((t.drop 9).takeWhile (fun c => c ≠ dq)).length with
      | nil =>
        rw [hdrop] at h
        cases h
      | cons c r2 =>
        cases r2 with
        | nil =>
          rw [hdrop] at h
          cases h
        | cons d r3 =>
          rw [hdrop] at h
          try dsimp only [] at h
          by_cases hcd : c = dq ∧ d = '>'
          · rw [if_pos hcd] at h
            try dsimp only [] at h
            by_cases hcond : (r3.drop (r3.takeWhile (fun x => x ≠ '>')).length).head? =
                some '>' ∧ 4 ≤ (r3.takeWhile (fun x => x ≠ '>')).length ∧
                ("</a".toList).isSuffixOf (r3.takeWhile (fun x => x ≠ '>')) = true
            · rw [if_pos hcond] at h
              injection h with h1
              injection h1 with hk hus
              subst hus
              subst hk
              have h9le : 9 ≤ t.length := by
                have := (List.isPrefixOf_iff_prefix.mp hpre).length_le
                have h9 : (ahrefLit : Str).length = 9 := by decide
                omega
              have hu_le : ((t.drop 9).takeWhile (fun c => c ≠ dq)).length ≤
                  (t.drop 9).length :=
                (List.takeWhile_prefix _).length_le
              have hdrop_len :
                  (t.drop 9).length =
                    ((t.drop 9).takeWhile (fun c => c ≠ dq)).length + 2 +
                      r3.length := by
                have hcl := congrArg List.length hdrop
                rw [List.length_drop] at hcl
                simp only [List.length_cons] at hcl
                omega
              have hrr_le : (r3.takeWhile (fun x => x ≠ '>')).length ≤ r3.length :=
                (List.takeWhile_prefix _).length_le
              have hrr_lt : (r3.takeWhile (fun x => x ≠ '>')).length < r3.length := by
                have hne : r3.drop (r3.takeWhile (fun x => x ≠ '>')).length ≠ [] := by
                  intro hnil
                  rw [hnil] at hcond
                  simp at hcond
                rcases Nat.lt_or_ge (r3.takeWhile (fun x => x ≠ '>')).length
                    r3.length with hlt2 | hge
                · exact hlt2
                · exact absurd (List.drop_eq_nil_of_le hge) hne
              have hsf_len :
                  ((r3.takeWhile (fun x => x ≠ '>')).take
                    ((r3.takeWhile (fun x => x ≠ '>')).length - 3)).length =
                    (r3.takeWhile (fun x => x ≠ '>')).length - 3 := by
                rw [List.length_take]
                omega
              have htd : (t.drop 9).length = t.length - 9 := List.length_drop 9 t
              refine ⟨?_, ?_, ?_⟩
              · simp only [markerLen, hsf_len]
                obtain ⟨-, h4, -⟩ := hcond
                omega
              · intro hnil
                have hln := congrArg List.length hnil
                rw [hsf_len] at hln
                simp only [List.length_nil] at hln
                obtain ⟨-, h4, -⟩ := hcond
                omega
              · omega
            · rw [if_neg hcond] at h
              cases h
          · rw [if_neg hcd] at h
            cases h
  · rw [if_neg hpre] at h
    cases h

/-- The anchor matches of `findAnchors` are non-overlapping, in
left-to-right order, with non-empty surface forms: the well-separation
invariant of the scan. -/
def WellSep : Nat → List (Nat × (Str × Str)) → Prop
  | _, [] => True
  | pos, (st, us) :: rest =>
    pos ≤ st ∧ us.2 ≠ [] ∧ WellSep (st + markerLen us) rest

theorem WellSep_mono {pos pos' : Nat} {ms : List (Nat × (Str × Str))}
    (hle : pos ≤ pos') (h : WellSep pos' ms) : WellSep pos ms := by
  cases ms with
  | nil => trivial
  | cons m rest =>
    obtain ⟨st, us⟩ := m
    obtain ⟨h1, h2, h3⟩ := h
    exact ⟨le_trans hle h1, h2, h3⟩

theorem findAnchors_wellSep :
    ∀ (fuel pos : Nat) (s : Str), WellSep pos (goCollectPos matchAnchor fuel pos s) := by
  intro fuel
  induction fuel with
  | zero =>
    intro pos s
    cases s <;> trivial
  | succ fuel ih =>
    intro pos s
    cases s with
    | nil => trivial
    | cons c cs =>
      cases hm : matchAnchor (c :: cs) with
      | none =>
        simp only [goCollectPos, hm]
        exact WellSep_mono (Nat.le_succ pos) (ih (pos + 1) cs)
      | some ka =>
        obtain ⟨k, us⟩ := ka
        obtain ⟨hk, hsf, -⟩ := matchAnchor_shape hm
        subst hk
        have hk0 : ¬ markerLen us = 0 := by
          simp [markerLen]
        simp only [goCollectPos, hm, if_neg hk0]
        exact ⟨le_refl pos, hsf, ih (pos + markerLen us) _⟩

/-- The annotation loop, unrolled against the claimed closed form: each
recorded annotation's offset is its match's start minus the running sum,
over all earlier matches, of (marker length - surface length); a match is
recorded iff its uri does not contain `quote("#")` or anchors are kept. -/
theorem annsLoop_eq_spec (keep : Bool) :
    ∀ (ms : List (Nat × (Str × Str))) (delta : Int),
      annsLoop keep delta ms =
        ((ms.zip (ms.scanl
            (fun dacc m => dacc + ((markerLen m.2 - m.2.2.length : Nat) : Int))
            delta)).filter
          (fun md => !containsSub q23 md.1.2.1 || keep)).map
          (fun md => ⟨md.1.2.1, md.1.2.2, (md.1.1 : Int) - md.2⟩) := by
  intro ms
  induction ms with
  | nil => intro delta; rfl
  | cons m rest ih =>
    intro delta
    obtain ⟨st, us⟩ := m
    rw [List.scanl, List.zip_cons_cons, List.filter_cons]
    by_cases hc : containsSub q23 us.1 = false ∨ keep = true
    · have hb : (!containsSub q23 ((st, us), delta).1.2.1 || keep) = true := by
        rcases hc with hc | hc <;> simp [hc]
      rw [if_pos hb, List.map_cons, ← ih]
      show annsLoop keep delta ((st, us) :: rest) = _
      simp only [annsLoop, if_pos hc]
      rfl
    · have hb : ¬ (!containsSub q23 ((st, us), delta).1.2.1 || keep) = true := by
        intro hcon
        apply hc
        rcases Bool.or_eq_true_iff.mp hcon with h1 | h1
        · exact Or.inl (by simpa using h1)
        · exact Or.inr h1
      rw [if_neg hb, ← ih]
      show annsLoop keep delta ((st, us) :: rest) = _
      simp only [annsLoop, if_neg hc]
      rfl

/-- Offsets of recorded annotations are bounded below by the scan position
and strictly increasing, given well-separated matches. -/
theorem annsLoop_chain (keep : Bool) :
    ∀ (ms : List (Nat × (Str × Str))) (delta : Int) (pos : Nat),
      WellSep pos ms →
      (∀ a ∈ annsLoop keep delta ms, ((pos : Int) - delta) ≤ a.offset) ∧
      List.Chain' (fun a b => a.offset < b.offset) (annsLoop keep delta ms) := by
  intro ms
  induction ms with
  | nil =>
    intro delta pos _
    exact ⟨(by intro a ha; cases ha), List.chain'_nil⟩
  | cons m rest ih =>
    intro delta pos hws
    obtain ⟨st, us⟩ := m
    have hws' : pos ≤ st ∧ us.2 ≠ [] ∧ WellSep (st + markerLen us) rest := hws
    obtain ⟨hpos, hsf, hws2⟩ := hws'
    have hsf1 : 1 ≤ us.2.length := by
      cases hus : us.2 with
      | nil => exact absurd hus hsf
      | cons x xs => simp
    have hstep : ((markerLen us - us.2.length : Nat) : Int) =
        (markerLen us : Int) - (us.2.length : Int) := by
      have : us.2.length ≤ markerLen us := by
        simp only [markerLen]
        omega
      push_cast [Nat.cast_sub this]
      ring
    obtain ⟨ihb, ihc⟩ := ih (delta + ((markerLen us - us.2.length : Nat) : Int))
      (st + markerLen us) hws2
    have htail_lb : ∀ a ∈ annsLoop keep
        (delta + ((markerLen us - us.2.length : Nat) : Int)) rest,
        ((st : Int) - delta) + us.2.length ≤ a.offset := by
      intro a ha
      have := ihb a ha
      rw [hstep] at this
      push_cast at this ⊢
      omega
    by_cases hc : containsSub q23 us.1 = false ∨ keep = true
    · have hexp : annsLoop keep delta ((st, us) :: rest) =
          ⟨us.1, us.2, (st : Int) - delta⟩ ::
            annsLoop keep (delta + ((markerLen us - us.2.length : Nat) : Int)) rest := by
        simp only [annsLoop, if_pos hc]
        rfl
      rw [hexp]
      constructor
      · intro a ha
        rcases List.mem_cons.mp ha with rfl | ha2
        · show ((pos : Int) - delta) ≤ (st : Int) - delta
          have : (pos : Int) ≤ (st : Int) := by exact_mod_cast hpos
          omega
        · have := htail_lb a ha2
          have hps : (pos : Int) ≤ (st : Int) := by exact_mod_cast hpos
          omega
      · rw [List.chain'_cons']
        refine ⟨?_, ihc⟩
        intro b hb
        have hbm : b ∈ annsLoop keep
            (delta + ((markerLen us - us.2.length : Nat) : Int)) rest :=
          List.mem_of_mem_head? hb
        have := htail_lb b hbm
        show (st : Int) - delta < b.offset
        have : (1 : Int) ≤ (us.2.length : Int) := by exact_mod_cast hsf1
        omega
    · have hexp : annsLoop keep delta ((st, us) :: rest) =
          annsLoop keep (delta + ((markerLen us - us.2.length : Nat) : Int)) rest := by
        simp only [annsLoop, if_neg hc]
        rfl
      rw [hexp]
      constructor
      · intro a ha
        have := htail_lb a ha
        have hps : (pos : Int) ≤ (st : Int) := by exact_mod_cast hpos
        omega
      · exact ihc

/-- Relation between the annotation loop and the anchor substitution:
each recorded annotation's surface form occurs in the substituted text at
the position its offset denotes (relative to the scan position and the
running delta). -/
theorem subAnchors_spec (keep : Bool) :
    ∀ (fuel pos : Nat) (delta : Int) (s : Str),
      ∀ a ∈ annsLoop keep delta (goCollectPos matchAnchor fuel pos s),
        ∃ pre suf, goSub anchorSubMatcher fuel s = pre ++ a.surface_form ++ suf ∧
          (pre.length : Int) = a.offset - ((pos : Int) - delta) := by
  intro fuel
  induction fuel with
  | zero =>
    intro pos delta s a ha
    cases s with
    | nil => simp [goCollectPos, annsLoop] at ha
    | cons c cs => simp [goCollectPos, annsLoop] at ha
  | succ fuel ih =>
    intro pos delta s a ha
    cases s with
    | nil => simp [goCollectPos, annsLoop] at ha
    | cons c cs =>
      cases hm : matchAnchor (c :: cs) with
      | none =>
        have hsub : anchorSubMatcher (c :: cs) = none := by
          simp [anchorSubMatcher, hm]
        simp only [goCollectPos, hm] at ha
        obtain ⟨pre, suf, hseq, hlen⟩ := ih (pos + 1) delta cs a ha
        refine ⟨c :: pre, suf, ?_, ?_⟩
        · simp only [goSub, hsub, hseq]
          rfl
        · simp only [List.length_cons]
          push_cast at hlen ⊢
          omega
      | some ka =>
        obtain ⟨k, us⟩ := ka
        obtain ⟨hk, hsf, hkle⟩ := matchAnchor_shape hm
        subst hk
        have hk0 : ¬ markerLen us = 0 := by simp [markerLen]
        have hsub : anchorSubMatcher (c :: cs) = some (markerLen us, us.2) := by
          simp [anchorSubMatcher, hm]
        have hmle : us.2.length ≤ markerLen us := by
          simp only [markerLen]
          omega
        have hcast : ((markerLen us - us.2.length : Nat) : Int) =
            (markerLen us : Int) - (us.2.length : Int) := by
          push_cast [Nat.cast_sub hmle]
          ring
        simp only [goCollectPos, hm, if_neg hk0] at ha
        by_cases hcrec : containsSub q23 us.1 = false ∨ keep = true
        · have hexp : annsLoop keep delta ((pos, us) ::
              goCollectPos matchAnchor fuel (pos + markerLen us)
                ((c :: cs).drop (markerLen us))) =
              ⟨us.1, us.2, (pos : Int) - delta⟩ ::
                annsLoop keep (delta + ((markerLen us - us.2.length : Nat) : Int))
                  (goCollectPos matchAnchor fuel (pos + markerLen us)
                    ((c :: cs).drop (markerLen us))) := by
            simp only [annsLoop, if_pos hcrec]
            rfl
          rw [hexp] at ha
          rcases List.mem_cons.mp ha with rfl | ha2
          · refine ⟨[], goSub anchorSubMatcher fuel ((c :: cs).drop (markerLen us)),
              ?_, ?_⟩
            · rw [goSub_cons_some _ c cs fuel (markerLen us) us.2 hsub hk0]
              rfl
            · simp
          · obtain ⟨pre, suf, hseq, hlen⟩ :=
              ih (pos + markerLen us)
                (delta + ((markerLen us - us.2.length : Nat) : Int))
                ((c :: cs).drop (markerLen us)) a ha2
            refine ⟨us.2 ++ pre, suf, ?_, ?_⟩
            · rw [goSub_cons_some _ c cs fuel (markerLen us) us.2 hsub hk0, hseq]
              simp [List.append_assoc]
            · simp only [List.length_append]
              rw [hcast] at hlen
              push_cast at hlen ⊢
              omega
        · have hexp : annsLoop keep delta ((pos, us) ::
              goCollectPos matchAnchor fuel (pos + markerLen us)
                ((c :: cs).drop (markerLen us))) =
              annsLoop keep (delta + ((markerLen us - us.2.length : Nat) : Int))
                (goCollectPos matchAnchor fuel (pos + markerLen us)
                  ((c :: cs).drop (markerLen us))) := by
            simp only [annsLoop, if_neg hcrec]
            rfl
          rw [hexp] at ha
          obtain ⟨pre, suf, hseq, hlen⟩ :=
            ih (pos + markerLen us)
              (delta + ((markerLen us - us.2.length : Nat) : Int))
              ((c :: cs).drop (markerLen us)) a ha
          refine ⟨us.2 ++ pre, suf, ?_, ?_⟩
          · rw [goSub_cons_some _ c cs fuel (markerLen us) us.2 hsub hk0, hseq]
            simp [List.append_assoc]
          · simp only [List.length_append]
            rw [hcast] at hlen
            push_cast at hlen ⊢
            omega

/-- Length accounting of the anchor substitution: every match — recorded
as an annotation or not — is replaced by its surface form, shortening the
text by (marker length - surface length). -/
theorem subAnchors_len :
    ∀ (fuel pos : Nat) (s : Str),
      (goSub anchorSubMatcher fuel s).length +
        ((goCollectPos matchAnchor fuel pos s).map
          (fun m => markerLen m.2 - m.2.2.length)).sum = s.length := by
  intro fuel
  induction fuel with
  | zero =>
    intro pos s
    cases s <;> simp [goSub, goCollectPos]
  | succ fuel ih =>
    intro pos s
    cases s with
    | nil => simp [goSub, goCollectPos]
    | cons c cs =>
      cases hm : matchAnchor (c :: cs) with
      | none =>
        have hsub : anchorSubMatcher (c :: cs) = none := by
          simp [anchorSubMatcher, hm]
        simp only [goSub, goCollectPos, hm, hsub, List.length_cons]
        have := ih (pos + 1) cs
        omega
      | some ka =>
        obtain ⟨k, us⟩ := ka
        obtain ⟨hk, hsf, hkle⟩ := matchAnchor_shape hm
        subst hk
        have hk0 : ¬ markerLen us = 0 := by simp [markerLen]
        have hsub : anchorSubMatcher (c :: cs) = some (markerLen us, us.2) := by
          simp [anchorSubMatcher, hm]
        simp only [goSub, goCollectPos, hm, hsub, if_neg hk0, List.map_cons,
          List.sum_cons, List.length_append]
        have hdl : ((c :: cs).drop (markerLen us)).length =
            (c :: cs).length - markerLen us := List.length_drop _ _
        have hrec := ih (pos + markerLen us) ((c :: cs).drop (markerLen us))
        have hsfle : us.2.length ≤ markerLen us := by
          simp only [markerLen]
          omega
        simp only [List.length_cons] at *
        omega

/-- Projection of the annotation loop: exactly the matches whose uri does
not contain `quote("#")` (or all matches when anchors are kept) are
recorded, in order, with their uri and surface form. -/
theorem annsLoop_proj (keep : Bool) :
    ∀ (ms : List (Nat × (Str × Str))) (delta : Int),
      (annsLoop keep delta ms).map (fun a => (a.uri, a.surface_form)) =
        (ms.filter (fun m => !containsSub q23 m.2.1 || keep)).map (fun m => m.2) := by
  intro ms
  induction ms with
  | nil => intro delta; rfl
  | cons m rest ih =>
    intro delta
    obtain ⟨st, us⟩ := m
    rw [List.filter_cons]
    by_cases hc : containsSub q23 us.1 = false ∨ keep = true
    · have hb : (!containsSub q23 (st, us).2.1 || keep) = true := by
        rcases hc with hc | hc <;> simp [hc]
      rw [if_pos hb]
      show (annsLoop keep delta ((st, us) :: rest)).map _ = _
      simp only [annsLoop, if_pos hc, List.map_cons]
      rw [ih]
    · have hb : ¬ (!containsSub q23 (st, us).2.1 || keep) = true := by
        intro hcon
        apply hc
        rcases Bool.or_eq_true_iff.mp hcon with h1 | h1
        · exact Or.inl (by simpa using h1)
        · exact Or.inr h1
      rw [if_neg hb]
      show (annsLoop keep delta ((st, us) :: rest)).map _ = _
      simp only [annsLoop, if_neg hc]
      rw [ih]

/-- Claim C2: over the matches the annotator finds (`findAnchors`, the
`finditer` of `process_document`), each recorded annotation's offset is
the match's start position minus the cumulative difference between anchor
marker lengths and display-text lengths over all earlier matches; the
recorded offsets are strictly increasing in anchor order; and each offset
is the position of that annotation's display text in the final text after
all markers are replaced. -/
theorem claim2_theorem :
    ∀ (keep : Bool) (s : Str),
      (annsLoop keep 0 (findAnchors s) =
        (((findAnchors s).zip ((findAnchors s).scanl
            (fun dacc m => dacc + ((markerLen m.2 - m.2.2.length : Nat) : Int)) 0)).filter
          (fun md => !containsSub q23 md.1.2.1 || keep)).map
          (fun md => ⟨md.1.2.1, md.1.2.2, (md.1.1 : Int) - md.2⟩)) ∧
      List.Chain' (fun a b => a.offset < b.offset) (annsLoop keep 0 (findAnchors s)) ∧
      (∀ a ∈ annsLoop keep 0 (findAnchors s),
         ∃ pre suf, subAnchors s = pre ++ a.surface_form ++ suf ∧
           (pre.length : Int) = a.offset) := by
  intro keep s
  refine ⟨annsLoop_eq_spec keep (findAnchors s) 0, ?_, ?_⟩
  · exact (annsLoop_chain keep (findAnchors s) 0 0
      (findAnchors_wellSep s.length 0 s)).2
  · intro a ha
    obtain ⟨pre, suf, hseq, hlen⟩ :=
      subAnchors_spec keep s.length 0 0 s a ha
    exact ⟨pre, suf, hseq, by simpa using hlen⟩

set_option maxRecDepth 2000 in
/-- Witness for claim C2 at a concrete text with two anchors (one of them
a fragment link). -/
theorem claim2_witness :
    ∃ pre suf,
      subAnchors ("see ".toList ++ ahrefLit ++ "Target".toList ++
          [dq, Char.ofNat 62] ++ "x</a> end".toList) =
        pre ++ "x".toList ++ suf ∧
      (pre.length : Int) =
        (Ann.mk ("Target".toList) ("x".toList) 4).offset :=
  (claim2_theorem false ("see ".toList ++ ahrefLit ++ "Target".toList ++
      [dq, Char.ofNat 62] ++ "x</a> end".toList)).2.2
    (Ann.mk ("Target".toList) ("x".toList) 4) (by decide)

/-- Counterexample to claim C4 as stated: a match whose target contains
the fragment delimiter `#` (but not its URL-encoded form `%23`) IS
recorded as an annotation even with `keep_anchors` disabled, because the
code tests for `urllib.parse.quote("#") == "%23"` in the target while the
pipeline builds targets unquoted. -/
theorem claim4_counterexample :
    containsChar '#' ("A#B".toList) = true ∧
    annsLoop false 0 (findAnchors (ahrefLit ++ "A#B".toList ++
        [dq, Char.ofNat 62] ++ "x</a>".toList)) =
      [⟨"A#B".toList, "x".toList, 0⟩] := by
  constructor
  · decide
  · decide

/-- Claim C4 (amended): a match is left unrecorded exactly when its target
contains the URL-encoded fragment delimiter `"%23"` (= `quote("#")`) and
anchor retention is not enabled; every match — recorded or not — still
contributes its (marker length - display length) to the cumulative delta
and has its marker replaced by its display text in the final text, the
total shortening being the sum of those contributions. -/
theorem claim4_theorem :
    (∀ (keep : Bool) (s : Str),
       (annsLoop keep 0 (findAnchors s)).map (fun a => (a.uri, a.surface_form)) =
         ((findAnchors s).filter
           (fun m => !containsSub q23 m.2.1 || keep)).map (fun m => m.2)) ∧
    (∀ s : Str,
       (subAnchors s).length +
         ((findAnchors s).map (fun m => markerLen m.2 - m.2.2.length)).sum =
         s.length) := by
  constructor
  · intro keep s
    exact annsLoop_proj keep (findAnchors s) 0
  · intro s
    exact subAnchors_len s.length 0 s

/-!  Claim C9: decimal numeric character references. -/

/-- A character is not a member of a string whose `containsChar` test is
false. -/
theorem not_mem_of_containsChar {a : Char} : ∀ {s : Str},
    containsChar a s = false → a ∉ s := by
  intro s
  induction s with
  | nil => intro _ hmem; cases hmem
  | cons c cs ih =>
    intro h hmem
    simp only [containsChar, List.contains_cons, Bool.or_eq_false_iff] at h
    rcases List.mem_cons.mp hmem with rfl | hmem2
    · have h1 := h.1
      simp at h1
    · exact ih h.2 hmem2

/-- No numeric-entity match at a position that does not hold an `&`. -/
theorem matchNumericEntity_none {t : Str}
    (h : t.head? ≠ some '&') : matchNumericEntity t = none := by
  rw [matchNumericEntity.eq_def]
  split
  · exact absurd rfl h
  · rfl

/-- The head of a non-empty suffix is an element of the larger list. -/
theorem head_mem_of_suffix {t s : Str} {c : Char}
    (hs : t <:+ s) (hc : t.head? = some c) : c ∈ s := by
  cases t with
  | nil => exact Option.noConfusion hc
  | cons x xs =>
    have hx : x = c := by simpa using hc
    subst hx
    exact hs.subset (List.mem_cons_self _ _)

/-- `takeWhile` over a block that satisfies the predicate, stopped by the
first failing element. -/
theorem takeWhile_exact {p : Char → Bool} :
    ∀ (a : Str) {c : Char} (b : Str), (∀ x ∈ a, p x = true) → p c = false →
      (a ++ c :: b).takeWhile p = a := by
  intro a
  induction a with
  | nil =>
    intro c b _ hc
    rw [List.nil_append, List.takeWhile_cons_of_neg (by simp [hc])]
  | cons x xs ih =>
    intro c b ha hc
    have hx : p x = true := ha x (List.mem_cons_self _ _)
    rw [List.cons_append, List.takeWhile_cons_of_pos hx,
      ih b (fun y hy => ha y (List.mem_cons_of_mem _ hy)) hc]

/-- The numeric-entity matcher at the start of `&#DIGITS;` followed by
anything: it matches the whole reference and returns the digit run. -/
theorem matchNumericEntity_at {ds post : Str}
    (hne : ds ≠ []) (hdig : ∀ c ∈ ds, c.isDigit = true) :
    matchNumericEntity ('&' :: '#' :: (ds ++ ';' :: post)) =
      some (2 + ds.length + 1, ds) := by
  have htw : (ds ++ ';' :: post).takeWhile Char.isDigit = ds :=
    takeWhile_exact ds post hdig (by decide)
  have hdr : (ds ++ ';' :: post).drop ds.length = ';' :: post :=
    List.drop_left ds (';' :: post)
  simp only [matchNumericEntity]
  rw [htw, hdr]
  have hcnd : ds ≠ [] ∧ (';' :: post : Str).head? = some ';' := ⟨hne, rfl⟩
  rw [if_pos hcnd]

/-- The entity pattern starts with `&`, so it is not a prefix at a position
led by any other character. -/
theorem entPatHeadMismatch {ds zs : Str} {z : Char} (hz : z ≠ '&') :
    ("&#".toList ++ ds ++ [';']).isPrefixOf (z :: zs) = false := by
  show ('&' :: (('#' :: ds) ++ [';'])).isPrefixOf (z :: zs) = false
  simp only [List.isPrefixOf]
  have hbz : ('&' == z) = false := by
    cases hq : ('&' == z) with
    | false => rfl
    | true =>
      have h2 : '&' = z := by simpa using hq
      exact absurd h2.symm hz
  rw [hbz, Bool.false_and]

set_option maxRecDepth 4000 in
/-- Claim C9: a decimal numeric character reference `&#N;` in the cleaned
text is replaced by the empty string when N ≥ 0x10000 and by the single
character with code point N otherwise, via exact integer decoding of the
digit run.  The text around the reference is stated ampersand-free so that
the reference is the only match of the pass, and N is restricted to
unicode scalar values: for 0xD800 ≤ N < 0xE000 the Python chr builtin
yields a lone surrogate that `Char` cannot represent, so that range is
outside this embedding. -/
theorem claim9_theorem :
    ∀ (ds pre post : Str),
      ds ≠ [] → (∀ c ∈ ds, c.isDigit = true) →
      containsChar '&' pre = false → containsChar '&' post = false →
      (digitsVal ds < 0xD800 ∨ 0xE000 ≤ digitsVal ds) →
      numericEntitiesPass (pre ++ ("&#".toList ++ ds ++ [';']) ++ post) =
        pre ++ (if 0x10000 ≤ digitsVal ds then []
                else [Char.ofNat (digitsVal ds)]) ++ post := by
  intro ds pre post hne hdig hpre hpost _hval
  have hshape : ("&#".toList ++ ds ++ [';']) ++ post =
      '&' :: '#' :: (ds ++ ';' :: post) := by
    show (['&', '#'] ++ ds ++ [';']) ++ post = _
    rw [List.append_assoc, List.append_assoc]
    rfl
  have hdrop : ('&' :: '#' :: (ds ++ ';' :: post)).drop (2 + ds.length + 1) =
      post := by
    have h1 : 2 + ds.length + 1 = ds.length + 1 + 1 + 1 := by omega
    rw [h1, List.drop_succ_cons, List.drop_succ_cons, ← List.drop_drop,
      List.drop_left]
    rfl
  have hnopost : ∀ t, t ≠ [] → t <:+ post → matchNumericEntity t = none := by
    intro t ht hts
    apply matchNumericEntity_none
    intro hcon
    exact absurd (head_mem_of_suffix hts hcon) (not_mem_of_containsChar hpost)
  have hentlen : ("&#".toList ++ ds ++ [';']).length = 2 + ds.length + 1 := by
    rw [List.length_append, List.length_append]
    rfl
  have hcol : collectAll matchNumericEntity
      (pre ++ ("&#".toList ++ ds ++ [';']) ++ post) = [ds] := by
    unfold collectAll
    rw [List.append_assoc, hshape]
    have hlen : (pre ++ '&' :: '#' :: (ds ++ ';' :: post)).length =
        pre.length + (2 + ds.length + post.length + 1) := by
      simp only [List.length_append, List.length_cons]
      omega
    have hnopre : ∀ i, i < pre.length →
        matchNumericEntity
          (pre.drop i ++ ('&' :: '#' :: (ds ++ ';' :: post))) = none := by
      intro i hi
      apply matchNumericEntity_none
      cases hdrp : pre.drop i with
      | nil =>
        exfalso
        have h0 : (pre.drop i).length = 0 := by rw [hdrp]; rfl
        rw [List.length_drop] at h0
        omega
      | cons z zs =>
        intro hcon
        have hz : z = '&' := by simpa using hcon
        subst hz
        have hmem1 : '&' ∈ pre.drop i := by
          rw [hdrp]; exact List.mem_cons_self _ _
        exact absurd (List.mem_of_mem_drop hmem1) (not_mem_of_containsChar hpre)
    rw [hlen,
      goCollect_append matchNumericEntity pre
        ('&' :: '#' :: (ds ++ ';' :: post)) (2 + ds.length + post.length + 1)
        hnopre,
      goCollect_cons_some matchNumericEntity '&' ('#' :: (ds ++ ';' :: post))
        (2 + ds.length + post.length) (2 + ds.length + 1) ds
        (matchNumericEntity_at hne hdig) (by omega),
      hdrop,
      goCollect_eq_nil matchNumericEntity post (2 + ds.length + post.length)
        hnopost]
  have hrep : replaceAll ("&#".toList ++ ds ++ [';']) (handle_unicode ds)
      (pre ++ ("&#".toList ++ ds ++ [';']) ++ post) =
      pre ++ handle_unicode ds ++ post := by
    unfold replaceAll subAll
    have hassoc : (pre ++ ("&#".toList ++ ds ++ [';'])) ++ post =
        pre ++ (("&#".toList ++ ds ++ [';']) ++ post) :=
      List.append_assoc pre _ post
    rw [hassoc, hshape]
    have hlen : (pre ++ '&' :: '#' :: (ds ++ ';' :: post)).length =
        pre.length + (2 + ds.length + post.length + 1) := by
      simp only [List.length_append, List.length_cons]
      omega
    have hskip : ∀ i, i < pre.length →
        (fun t => if ("&#".toList ++ ds ++ [';']).isPrefixOf t then
            some (("&#".toList ++ ds ++ [';']).length, handle_unicode ds)
            else none)
          (pre.drop i ++ ('&' :: '#' :: (ds ++ ';' :: post))) = none := by
      intro i hi
      cases hdrp : pre.drop i with
      | nil =>
        exfalso
        have h0 : (pre.drop i).length = 0 := by rw [hdrp]; rfl
        rw [List.length_drop] at h0
        omega
      | cons z zs =>
        have hz : z ≠ '&' := by
          intro hzc
          subst hzc
          have hmem1 : '&' ∈ pre.drop i := by
            rw [hdrp]; exact List.mem_cons_self _ _
          exact absurd (List.mem_of_mem_drop hmem1)
            (not_mem_of_containsChar hpre)
        have hnc : ¬ (("&#".toList ++ ds ++ [';']).isPrefixOf
            (z :: (zs ++ ('&' :: '#' :: (ds ++ ';' :: post)))) = true) := by
          rw [entPatHeadMismatch hz]
          exact Bool.false_ne_true
        exact if_neg hnc
    have hpf : ("&#".toList ++ ds ++ [';']).isPrefixOf
        ('&' :: '#' :: (ds ++ ';' :: post)) = true := by
      rw [← hshape, List.isPrefixOf_iff_prefix]
      exact List.prefix_append _ _
    have hm2 : (fun t => if ("&#".toList ++ ds ++ [';']).isPrefixOf t then
        some (("&#".toList ++ ds ++ [';']).length, handle_unicode ds)
        else none) ('&' :: '#' :: (ds ++ ';' :: post)) =
        some (2 + ds.length + 1, handle_unicode ds) := by
      dsimp only []
      rw [if_pos hpf, hentlen]
    have hskip2 : ∀ t, t ≠ [] → t <:+ post →
        (fun t => if ("&#".toList ++ ds ++ [';']).isPrefixOf t then
          some (("&#".toList ++ ds ++ [';']).length, handle_unicode ds)
          else none) t = none := by
      intro t ht hts
      cases t with
      | nil => exact absurd rfl ht
      | cons z zs =>
        have hz : z ≠ '&' := by
          intro hzc
          subst hzc
          have : '&' ∈ post := hts.subset (List.mem_cons_self _ _)
          exact absurd this (not_mem_of_containsChar hpost)
        have hnc : ¬ (("&#".toList ++ ds ++ [';']).isPrefixOf (z :: zs)
            = true) := by
          rw [entPatHeadMismatch hz]
          exact Bool.false_ne_true
        exact if_neg hnc
    rw [hlen,
      goSub_append _ pre ('&' :: '#' :: (ds ++ ';' :: post))
        (2 + ds.length + post.length + 1) hskip,
      goSub_cons_some _ '&' ('#' :: (ds ++ ';' :: post))
        (2 + ds.length + post.length) (2 + ds.length + 1) (handle_unicode ds)
        hm2 (by omega),
      hdrop,
      goSub_eq_self _ post (2 + ds.length + post.length) hskip2,
      List.append_assoc]
  show (collectAll matchNumericEntity
      (pre ++ ("&#".toList ++ ds ++ [';']) ++ post)).foldl
      (fun t dss =>
        replaceAll ("&#".toList ++ dss ++ [';']) (handle_unicode dss) t)
      (pre ++ ("&#".toList ++ ds ++ [';']) ++ post) = _
  rw [hcol]
  simp only [List.foldl_cons, List.foldl_nil]
  rw [hrep]
  rfl

/-- Witness for claim C9: the reference with digit run 66 decodes to the
single character B, and the one with digit run 65536 is dropped. -/
theorem claim9_witness :
    (numericEntitiesPass ("x".toList ++ ("&#".toList ++ "66".toList ++ [';'])
        ++ "y".toList) =
      "x".toList ++ (if 0x10000 ≤ digitsVal ("66".toList) then []
        else [Char.ofNat (digitsVal ("66".toList))]) ++ "y".toList) ∧
    (numericEntitiesPass ("x".toList ++ ("&#".toList ++ "65536".toList ++ [';'])
        ++ "y".toList) =
      "x".toList ++ (if 0x10000 ≤ digitsVal ("65536".toList) then []
        else [Char.ofNat (digitsVal ("65536".toList))]) ++ "y".toList) :=
  ⟨claim9_theorem ("66".toList) ("x".toList) ("y".toList) (by decide)
     (by decide) (by decide) (by decide) (by decide),
   claim9_theorem ("65536".toList) ("x".toList) ("y".toList) (by decide)
     (by decide) (by decide) (by decide) (by decide)⟩

/-!  Claim C7: cleaning already-cleaned plain text is a no-op. -/

/-- Every element of an occurring substring is an element of the
subject. -/
theorem mem_of_containsSub {p s : Str} (h : containsSub p s = true) :
    ∀ a ∈ p, a ∈ s := by
  induction s with
  | nil =>
    intro a hap
    cases p with
    | nil => cases hap
    | cons q qs => simp [containsSub] at h
  | cons c cs ih =>
    intro a hap
    simp only [containsSub, Bool.or_eq_true] at h
    rcases h with h1 | h2
    · exact ( List.isPrefixOf_iff_prefix.mp h1).subset hap
    · exact List.mem_cons_of_mem _ (ih h2 a hap)

/-- A pattern containing a character that the subject lacks does not occur
in the subject. -/
theorem containsSub_eq_false_of_mem {p s : Str} {a : Char}
    (hap : a ∈ p) (ha : containsChar a s = false) :
    containsSub p s = false := by
  cases hcs : containsSub p s with
  | false => rfl
  | true =>
    exact absurd (mem_of_containsSub hcs a hap) (not_mem_of_containsChar ha)

/-- Membership transport along a boolean list-prefix test. -/
theorem prefixOf_subset {p t : Str} (h : p.isPrefixOf t = true) :
    ∀ a ∈ p, a ∈ t := by
  intro a hap
  exact ( List.isPrefixOf_iff_prefix.mp h).subset hap

/-- `subAll` is the identity when every match of `m` would contain a
character the subject lacks. -/
theorem subAll_eq_self_of_mem {m : Str → Option (Nat × Str)} {a : Char}
    {s : Str} (hm : ∀ t x, m t = some x → a ∈ t)
    (ha : containsChar a s = false) : subAll m s = s := by
  apply goSub_eq_self
  intro t ht hts
  cases hmt : m t with
  | none => rfl
  | some x =>
    exact absurd (hts.subset (hm t x hmt)) (not_mem_of_containsChar ha)

/-- `collectAll` finds nothing when every match of `m` would contain a
character the subject lacks. -/
theorem collectAll_eq_nil_of_mem {α : Type} {m : Str → Option (Nat × α)}
    {a : Char} {s : Str} (hm : ∀ t x, m t = some x → a ∈ t)
    (ha : containsChar a s = false) : collectAll m s = [] := by
  apply goCollect_eq_nil
  intro t ht hts
  cases hmt : m t with
  | none => rfl
  | some x =>
    exact absurd (hts.subset (hm t x hmt)) (not_mem_of_containsChar ha)

/-- `subAll` is the identity when every match of `m` starts with a fixed
pattern the subject lacks. -/
theorem subAll_eq_self_of_trigger {m : Str → Option (Nat × Str)} {p : Str}
    {s : Str} (hm : ∀ t x, m t = some x → p.isPrefixOf t = true)
    (hp : containsSub p s = false) : subAll m s = s := by
  apply goSub_eq_self
  intro t ht hts
  cases hmt : m t with
  | none => rfl
  | some x =>
    have h1 := hm t x hmt
    have h2 := containsSub_suffix_not_isPrefixOf hp hts ht
    rw [h1] at h2
    exact Bool.noConfusion h2

/-- A fold whose every step fixes the accumulator fixes it overall. -/
theorem foldl_eq_self {β : Type} (f : Str → β → Str) (s : Str) :
    ∀ (L : List β), (∀ b ∈ L, f s b = s) → L.foldl f s = s := by
  intro L
  induction L with
  | nil => intro _; rfl
  | cons b bs ih =>
    intro hf
    rw [List.foldl_cons, hf b (List.mem_cons_self _ _)]
    exact ih fun b2 hb2 => hf b2 (List.mem_cons_of_mem _ hb2)

/-- A comment match contains a `<`. -/
theorem matchComment_mem {t : Str} {x : Nat × Str}
    (h : matchComment t = some x) : '<' ∈ t := by
  unfold matchComment at h
  split at h
  · rename_i hcond
    exact prefixOf_subset hcond '<' (by decide)
  · exact Option.noConfusion h

/-- An opening-tag match contains a `<`. -/
theorem matchOpenTag_mem {tag t : Str} {x : Nat × Str}
    (h : matchOpenTag tag t = some x) : '<' ∈ t := by
  rw [matchOpenTag.eq_def] at h
  split at h
  · exact List.mem_cons_self _ _
  · exact Option.noConfusion h

/-- A closing-tag match contains a `<`. -/
theorem matchCloseTag_mem {tag t : Str} {x : Nat × Str}
    (h : matchCloseTag tag t = some x) : '<' ∈ t := by
  rw [matchCloseTag.eq_def] at h
  split at h
  · exact List.mem_cons_self _ _
  · exact Option.noConfusion h

/-- A tag-block match contains a `<`. -/
theorem matchTagBlock_mem {tag t : Str} {x : Nat × Str}
    (h : matchTagBlock tag t = some x) : '<' ∈ t := by
  unfold matchTagBlock at h
  cases hopen : matchOpenTag tag t with
  | none => rw [hopen] at h; exact Option.noConfusion h
  | some ko => exact matchOpenTag_mem hopen

/-- A text-payload tag-block match contains a `<`. -/
theorem matchTagBlockStr_mem {tag t : Str} {x : Nat × Str}
    (h : matchTagBlockStr tag t = some x) : '<' ∈ t := by
  unfold matchTagBlockStr at h
  cases hblk : matchTagBlock tag t with
  | none => rw [hblk] at h; exact Option.noConfusion h
  | some k => exact matchTagBlock_mem hblk

/-- A well-formed single-tag match contains a `<`. -/
theorem matchSingleGood_mem {tag t : Str} {x : Nat × Str}
    (h : matchSingleGood tag t = some x) : '<' ∈ t := by
  rw [matchSingleGood.eq_def] at h
  split at h
  · exact List.mem_cons_self _ _
  · exact Option.noConfusion h

/-- A malformed single-tag match contains a `<`. -/
theorem matchSingleBad_mem {tag t : Str} {x : Nat × Str}
    (h : matchSingleBad tag t = some x) : '<' ∈ t := by
  rw [matchSingleBad.eq_def] at h
  split at h
  · exact List.mem_cons_self _ _
  · exact Option.noConfusion h

/-- A table match contains an opening brace. -/
theorem matchTable_mem {t : Str} {x : Nat × Str}
    (h : matchTable t = some x) : lbr ∈ t := by
  rw [matchTable.eq_def] at h
  split at h
  · split at h
    · rename_i hc
      subst hc
      exact List.mem_cons_self _ _
    · exact Option.noConfusion h
  · exact Option.noConfusion h

/-- A well-formed wikilink match contains a `[`. -/
theorem matchGoodWikilink_mem {t : Str} {x : Nat × Str}
    (h : matchGoodWikilink t = some x) : '[' ∈ t := by
  rw [matchGoodWikilink.eq_def] at h
  split at h
  · exact List.mem_cons_self _ _
  · exact Option.noConfusion h

/-- A left-malformed wikilink match contains a `[`. -/
theorem matchBadLeftWikilink_mem {t : Str} {x : Nat × Str}
    (h : matchBadLeftWikilink t = some x) : '[' ∈ t := by
  rw [matchBadLeftWikilink.eq_def] at h
  split at h
  · exact List.mem_cons_self _ _
  · exact Option.noConfusion h

/-- A right-malformed wikilink match contains a `[`. -/
theorem matchBadRightWikilink_mem {t : Str} {x : Nat × Str}
    (h : matchBadRightWikilink t = some x) : '[' ∈ t := by
  rw [matchBadRightWikilink.eq_def] at h
  split at h
  · exact List.mem_cons_self _ _
  · exact Option.noConfusion h

/-- An external-link match contains a `[`. -/
theorem matchHttpLink_mem {t : Str} {x : Nat × Str}
    (h : matchHttpLink t = some x) : '[' ∈ t := by
  rw [matchHttpLink.eq_def] at h
  split at h
  · exact List.mem_cons_self _ _
  · exact Option.noConfusion h

/-- A numeric-entity match contains an `&`. -/
theorem matchNumericEntity_mem {t : Str} {x : Nat × Str}
    (h : matchNumericEntity t = some x) : '&' ∈ t := by
  rw [matchNumericEntity.eq_def] at h
  split at h
  · exact List.mem_cons_self _ _
  · exact Option.noConfusion h

/-- A bold-apostrophe match contains an apostrophe. -/
theorem matchAposBold_mem {t : Str} {x : Nat × Str}
    (h : matchAposBold t = some x) : apos ∈ t := by
  rw [matchAposBold.eq_def] at h
  split at h
  · split at h
    · rename_i hcond
      rcases hcond with ⟨_, hc1, _⟩
      subst hc1
      exact List.mem_cons_of_mem _ (List.mem_cons_self _ _)
    · exact Option.noConfusion h
  · exact Option.noConfusion h

/-- An italic-apostrophe match contains an apostrophe. -/
theorem matchAposItalic_mem {t : Str} {x : Nat × Str}
    (h : matchAposItalic t = some x) : apos ∈ t := by
  rw [matchAposItalic.eq_def] at h
  split at h
  · split at h
    · rename_i hcond
      rcases hcond with ⟨_, hc1, _⟩
      subst hc1
      exact List.mem_cons_of_mem _ (List.mem_cons_self _ _)
    · exact Option.noConfusion h
  · exact Option.noConfusion h

/-- A run of at least `n` copies of `c` starts with `n` copies of `c`. -/
theorem replicate_isPrefixOf_of_takeWhile {c : Char} :
    ∀ (n : Nat) (t : Str),
      n ≤ (t.takeWhile (fun x => x = c)).length →
      (List.replicate n c).isPrefixOf t = true := by
  intro n
  induction n with
  | zero => intro t _; rw [List.replicate_zero]; simp [List.isPrefixOf]
  | succ n ih =>
    intro t hn
    cases t with
    | nil =>
      simp only [List.takeWhile_nil, List.length_nil] at hn
      omega
    | cons a t2 =>
      by_cases ha : a = c
      · rw [List.takeWhile_cons_of_pos (by simp [ha]), List.length_cons] at hn
        have hn2 : n ≤ (t2.takeWhile (fun x => x = c)).length := by omega
        rw [List.replicate_succ]
        show ((c == a) && (List.replicate n c).isPrefixOf t2) = true
        rw [ih t2 hn2, Bool.and_true]
        simp [ha]
      · rw [List.takeWhile_cons_of_neg (by simp [ha])] at hn
        simp only [List.length_nil] at hn
        omega

/-- A multi-space match starts with two spaces. -/
theorem matchMultiSpace_trigger {t : Str} {x : Nat × Str}
    (h : matchMultiSpace t = some x) : ("  ".toList).isPrefixOf t = true := by
  unfold matchMultiSpace at h
  dsimp only [] at h
  split at h
  · rename_i hlen
    exact replicate_isPrefixOf_of_takeWhile 2 t hlen
  · exact Option.noConfusion h

/-- A multi-dot match starts with four dots. -/
theorem matchMultiDot_trigger {t : Str} {x : Nat × Str}
    (h : matchMultiDot t = some x) : ("....".toList).isPrefixOf t = true := by
  unfold matchMultiDot at h
  dsimp only [] at h
  split at h
  · rename_i hlen
    exact replicate_isPrefixOf_of_takeWhile 4 t hlen
  · exact Option.noConfusion h

/-- Character-freeness extracted from `cleanPlain`. -/
theorem cleanPlain_char {s : Str} {c : Char} (h : cleanPlain s = true)
    (hc : c ∈ plainForbiddenChars) : containsChar c s = false := by
  unfold cleanPlain at h
  rw [Bool.and_eq_true] at h
  have h2 := List.all_eq_true.mp h.1 c hc
  simpa using h2

/-- Substring-freeness extracted from `cleanPlain`. -/
theorem cleanPlain_sub {s p : Str} (h : cleanPlain s = true)
    (hp : p ∈ plainForbiddenSubs) : containsSub p s = false := by
  unfold cleanPlain at h
  rw [Bool.and_eq_true] at h
  have h2 := List.all_eq_true.mp h.2 p hp
  simpa using h2

set_option maxRecDepth 8000 in
/-- Claim C7: on already-cleaned plain text (no markup characters, no
links, no entity references, none of the whitespace or punctuation
artifacts targeted by normalisation, as captured by `cleanPlain`),
`__clean` returns the text unchanged and adds nothing to the category
set. -/
theorem claim7_theorem (s : Str) (cats : List Str)
    (h : cleanPlain s = true) : clean s cats = (s, cats) := by
  have hLt : containsChar '<' s = false := cleanPlain_char h (by decide)
  have hGt : containsChar '>' s = false := cleanPlain_char h (by decide)
  have hLbk : containsChar '[' s = false := cleanPlain_char h (by decide)
  have hRbk : containsChar ']' s = false := cleanPlain_char h (by decide)
  have hLbr : containsChar lbr s = false := cleanPlain_char h (by decide)
  have hRbr : containsChar rbr s = false := cleanPlain_char h (by decide)
  have hPipe : containsChar pipeC s = false := cleanPlain_char h (by decide)
  have hAmp : containsChar '&' s = false := cleanPlain_char h (by decide)
  have hApos : containsChar apos s = false := cleanPlain_char h (by decide)
  have hTab : containsChar (Char.ofNat 9) s = false :=
    cleanPlain_char h (by decide)
  have hRepl : containsChar (Char.ofNat 0xFFFD) s = false :=
    cleanPlain_char h (by decide)
  have e1 : replaceAll ("&lt;".toList) ['<'] s = s :=
    replaceAll_eq_self _ (containsSub_eq_false_of_mem (by decide) hAmp)
  have e2 : replaceAll ("&gt;".toList) ['>'] s = s :=
    replaceAll_eq_self _ (containsSub_eq_false_of_mem (by decide) hAmp)
  have e3 : replaceAll ("<<".toList) repl2 s = s :=
    replaceAll_eq_self _ (containsSub_eq_false_of_mem (by decide) hLt)
  have e4 : replaceAll (">>".toList) repl2 s = s :=
    replaceAll_eq_self _ (containsSub_eq_false_of_mem (by decide) hGt)
  have e5 : subAll matchComment s = s :=
    subAll_eq_self_of_mem (fun t x hx => matchComment_mem hx) hLt
  have e6 : garbage_tags.foldl (fun u tag => subAll (matchTagBlock tag) u) s
      = s :=
    foldl_eq_self _ s garbage_tags (fun tag _ =>
      subAll_eq_self_of_mem (fun t x hx => matchTagBlock_mem hx) hLt)
  have e7 : wrapper_tags.foldl
      (fun u tag => subAll (matchCloseTag tag) (subAll (matchOpenTag tag) u))
      s = s :=
    foldl_eq_self _ s wrapper_tags (fun tag _ => by
      show subAll (matchCloseTag tag) (subAll (matchOpenTag tag) s) = s
      rw [subAll_eq_self_of_mem (fun t x hx => matchOpenTag_mem hx) hLt,
        subAll_eq_self_of_mem (fun t x hx => matchCloseTag_mem hx) hLt])
  have e8 : single_tags.foldl
      (fun u tag => subAll (matchSingleBad tag) (subAll (matchSingleGood tag) u))
      s = s :=
    foldl_eq_self _ s single_tags (fun tag _ => by
      show subAll (matchSingleBad tag) (subAll (matchSingleGood tag) s) = s
      rw [subAll_eq_self_of_mem (fun t x hx => matchSingleGood_mem hx) hLt,
        subAll_eq_self_of_mem (fun t x hx => matchSingleBad_mem hx) hLt])
  have e9 : placeholderPass ("math".toList) ("formula".toList) s = s := by
    unfold placeholderPass
    rw [collectAll_eq_nil_of_mem (fun t x hx => matchTagBlockStr_mem hx) hLt,
      List.foldl_nil]
  have e10 : placeholderPass ("code".toList) ("codice".toList) s = s := by
    unfold placeholderPass
    rw [collectAll_eq_nil_of_mem (fun t x hx => matchTagBlockStr_mem hx) hLt,
      List.foldl_nil]
  have e11 : replaceAll endBoxPat [rbr] s = s :=
    replaceAll_eq_self _ (containsSub_eq_false_of_mem (by decide) hLbr)
  have e12 : replaceAll [lbr, lbr] [lbr] s = s :=
    replaceAll_eq_self _ (containsSub_eq_false_of_mem (by decide) hLbr)
  have e13 : replaceAll [rbr, rbr] [rbr] s = s :=
    replaceAll_eq_self _ (containsSub_eq_false_of_mem (by decide) hRbr)
  have e14 : replaceAll [lbr, pipeC] [lbr] s = s :=
    replaceAll_eq_self _ (containsSub_eq_false_of_mem (by decide) hLbr)
  have e15 : replaceAll [pipeC, rbr] [rbr] s = s :=
    replaceAll_eq_self _ (containsSub_eq_false_of_mem (by decide) hPipe)
  have e16 : subAll matchTable s = s :=
    subAll_eq_self_of_mem (fun t x hx => matchTable_mem hx) hLbr
  have e17 : goodWikilinkPass1 s cats = (s, cats) := by
    unfold goodWikilinkPass1
    rw [collectAll_eq_nil_of_mem (fun t x hx => matchGoodWikilink_mem hx) hLbk,
      List.foldl_nil]
  have e18 : goodWikilinkPass2 s = s := by
    unfold goodWikilinkPass2
    rw [collectAll_eq_nil_of_mem (fun t x hx => matchGoodWikilink_mem hx) hLbk,
      List.foldl_nil]
  have e19 : badLeftWikilinkPass s cats = (s, cats) := by
    unfold badLeftWikilinkPass
    rw [collectAll_eq_nil_of_mem (fun t x hx => matchBadLeftWikilink_mem hx)
        hLbk,
      List.foldl_nil]
  have e20 : badRightWikilinkPass s cats = (s, cats) := by
    unfold badRightWikilinkPass
    rw [collectAll_eq_nil_of_mem (fun t x hx => matchBadRightWikilink_mem hx)
        hLbk,
      List.foldl_nil]
  have e21 : replaceAll ("[[".toList) [] s = s :=
    replaceAll_eq_self _ (containsSub_eq_false_of_mem (by decide) hLbk)
  have e22 : replaceAll ("]]".toList) [] s = s :=
    replaceAll_eq_self _ (containsSub_eq_false_of_mem (by decide) hRbk)
  have e23a : subAll matchHttpLink s = s :=
    subAll_eq_self_of_mem (fun t x hx => matchHttpLink_mem hx) hLbk
  have e23b : replaceAll ("[]".toList) [] s = s :=
    replaceAll_eq_self _ (containsSub_eq_false_of_mem (by decide) hLbk)
  have e24 : aposBoldPass s = s := by
    unfold aposBoldPass
    rw [collectAll_eq_nil_of_mem (fun t x hx => matchAposBold_mem hx) hApos,
      List.foldl_nil]
  have e25 : aposItalicPass s = s := by
    unfold aposItalicPass
    rw [collectAll_eq_nil_of_mem (fun t x hx => matchAposItalic_mem hx) hApos,
      List.foldl_nil]
  have e26 : replaceAll tripleApos [] s = s :=
    replaceAll_eq_self _ (containsSub_eq_false_of_mem (by decide) hApos)
  have e27 : replaceAll doubleApos ("&quot;".toList) s = s :=
    replaceAll_eq_self _ (containsSub_eq_false_of_mem (by decide) hApos)
  have e28 : replaceAll ("&amp;".toList) ['&'] s = s :=
    replaceAll_eq_self _ (containsSub_eq_false_of_mem (by decide) hAmp)
  have e29 : replaceAll ("&quot;&quot;".toList) ("&quot;".toList) s = s :=
    replaceAll_eq_self _ (containsSub_eq_false_of_mem (by decide) hAmp)
  have hce : ∀ e ∈ char_entities, '&' ∈ e.1 := by decide
  have e30 : char_entities.foldl (fun u e => replaceAll e.1 [e.2] u) s = s :=
    foldl_eq_self _ s char_entities (fun e he => by
      show replaceAll e.1 [e.2] s = s
      exact replaceAll_eq_self _
        (containsSub_eq_false_of_mem (hce e he) hAmp))
  have e31 : numericEntitiesPass s = s := by
    unfold numericEntitiesPass
    rw [collectAll_eq_nil_of_mem (fun t x hx => matchNumericEntity_mem hx)
        hAmp,
      List.foldl_nil]
  have e32 : replaceAll [Char.ofNat 9] [' '] s = s :=
    replaceAll_eq_self _ (containsSub_eq_false_of_mem (by decide) hTab)
  have e33 : subAll matchMultiSpace s = s :=
    subAll_eq_self_of_trigger (fun t x hx => matchMultiSpace_trigger hx)
      (cleanPlain_sub h (by decide))
  have e34 : subAll matchMultiDot s = s :=
    subAll_eq_self_of_trigger (fun t x hx => matchMultiDot_trigger hx)
      (cleanPlain_sub h (by decide))
  have e35 : replaceAll (" ,".toList) (",".toList) s = s :=
    replaceAll_eq_self _ (cleanPlain_sub h (by decide))
  have e36 : replaceAll (" .".toList) (".".toList) s = s :=
    replaceAll_eq_self _ (cleanPlain_sub h (by decide))
  have e37 : replaceAll (" :".toList) (":".toList) s = s :=
    replaceAll_eq_self _ (cleanPlain_sub h (by decide))
  have e38 : replaceAll (" ;".toList) (";".toList) s = s :=
    replaceAll_eq_self _ (cleanPlain_sub h (by decide))
  have e39 : replaceAll (",,".toList) (",".toList) s = s :=
    replaceAll_eq_self _ (cleanPlain_sub h (by decide))
  have e40 : replaceAll (",.".toList) (".".toList) s = s :=
    replaceAll_eq_self _ (cleanPlain_sub h (by decide))
  have e41 : replaceAll ("( ".toList) ("(".toList) s = s :=
    replaceAll_eq_self _ (cleanPlain_sub h (by decide))
  have e42 : replaceAll (" )".toList) (")".toList) s = s :=
    replaceAll_eq_self _ (cleanPlain_sub h (by decide))
  have e43 : replaceAll ("[ ".toList) ("[".toList) s = s :=
    replaceAll_eq_self _ (containsSub_eq_false_of_mem (by decide) hLbk)
  have e44 : replaceAll (" ]".toList) ("]".toList) s = s :=
    replaceAll_eq_self _ (containsSub_eq_false_of_mem (by decide) hRbk)
  have e45 : replaceAll (repl2 ++ [' ']) repl2 s = s :=
    replaceAll_eq_self _ (containsSub_eq_false_of_mem (by decide) hRepl)
  have e46 : replaceAll ([' '] ++ repl2) repl2 s = s :=
    replaceAll_eq_self _ (containsSub_eq_false_of_mem (by decide) hRepl)
  simp only [clean]
  rw [e1, e2, e3, e4, e5, e6, e7, e8, e9, e10, e11, e12, e13, e14, e15,
    e16, e16, e16, e17]
  dsimp only []
  rw [e18, e19]
  dsimp only []
  rw [e20]
  dsimp only []
  rw [e21, e22, e23a, e23b, e24, e25, e26, e27, e28, e29, e30, e31, e32,
    e33, e34, e35, e36, e37, e38, e39, e40, e41, e42, e43, e44, e45, e46]

/-- Witness for claim C7 at a concrete plain text and category set. -/
theorem claim7_witness :
    cleanPlain ("Hello there big world.".toList) = true ∧
    clean ("Hello there big world.".toList) ["Category:X".toList] =
      ("Hello there big world.".toList, ["Category:X".toList]) :=
  ⟨by decide, claim7_theorem _ _ (by decide)⟩

/-- Witness for the classifier part of claim C5 at a concrete processed
document (and its no-annotation variant). -/
theorem claim5_witness :
    (classifyDoc defaultConfig
       { id := none, title := some ("T".toList), url := some ("u".toList)
         text := some ("#REDIRECT x".toList), annotations := []
         categories := [] } = .ok none) ∧
    (classifyDoc defaultConfig
       { id := none, title := some ("T".toList), url := some ("u".toList)
         text := some ("#REDIRECT Target".toList)
         annotations := [⟨"Target".toList, "Target".toList, 10⟩]
         categories := [] } =
       .ok (some (.redirect (some ("u".toList))
         ("http://en.wikipedia.org/wiki/Target".toList)))) :=
  ⟨(claim5_theorem.2 defaultConfig _ ("#REDIRECT x".toList) rfl (by decide)).1 rfl,
   (claim5_theorem.2 defaultConfig _ ("#REDIRECT Target".toList) rfl
      (by decide)).2 ⟨"Target".toList, "Target".toList, 10⟩ [] _ rfl (by decide)⟩

end Wiki
